import Mathlib

/-!
Verification of the Performance Aggregation & Scoring Subsystem of the
`pms` repository (React + Supabase personnel performance tracker).

The development shallowly embeds the code that the claims are about:

* the `calculate_performance_score` database trigger
  (`supabase/init.sql`, final definition, also
  `supabase/migration_performance_scoring.sql`);
* the client-side preview score `calcPreviewScore` (`src/pages/Performance.tsx`);
* the batch-generation commit loop `handleGeneratePerformance`
  (`src/pages/Performance.tsx`) together with an upsert model for the
  `performance_records` table keyed on `UNIQUE(user_id, period)`;
* the import pipeline of the data-import page (`parseDate`, `parseCSV`,
  `parseExcel`, `processImport`, unnamed source file `part_004`);
* the period aggregation `fetchQCData` (`src/pages/Performance.tsx`);
* the role-scoped listing logic of `Performance.tsx` and `QCAccuracy.tsx`.

SQL `DECIMAL` values and JavaScript numbers are modelled as exact
rationals (`ℚ`); nullable columns as `Option`.  Stored tables are lists
of rows; the Supabase `upsert(..., onConflict := key)` call is modelled
as replace-or-append on the conflict key, with the `BEFORE INSERT OR
UPDATE` trigger applied to the written row.
-/

/-! ## Scoring engine: rows of `performance_records` and the trigger -/

/-- A row of the `performance_records` table (the columns that the score
computation and the batch-generation workflow read or write).
`deduction_points` and `bonus_points` are nullable columns (the SQL
trigger guards them with `COALESCE`); the source column
`weight_annotation` is rendered `weight_annot` here. -/
structure PRRow where
  user_id : String
  branch_id : Option String
  group_id : Option String
  period : String
  actual_attendance : ℚ
  required_attendance : ℚ
  annotation_score : ℚ
  onsite_performance : ℚ
  total_inspected : ℚ
  total_errors : ℚ
  deduction_points : Option ℚ
  deduction_reason : Option String
  bonus_points : Option ℚ
  bonus_reason : Option String
  weight_annot : ℚ
  weight_attendance : ℚ
  weight_onsite : ℚ
  weight_accuracy : ℚ
  final_score : Option ℚ
  deriving Repr, DecidableEq

/-- The body of the `calculate_performance_score` trigger function
(final definition in `supabase/init.sql`, identical in
`supabase/migration_performance_scoring.sql`): attendance, onsite and
accuracy sub-scores, weighted base score, unclamped final score. -/
def calcFinalScore (r : PRRow) : ℚ :=
  let attendance_score : ℚ :=
    if 0 < r.required_attendance then
      r.actual_attendance / r.required_attendance * 100
    else 100
  let onsite_score : ℚ := r.onsite_performance / 5 * 100
  let accuracy_score : ℚ :=
    if 0 < r.total_inspected then
      (1 - r.total_errors / r.total_inspected) * 100
    else 100
  let base_score : ℚ :=
    r.annotation_score * r.weight_annot / 100 +
    attendance_score * r.weight_attendance / 100 +
    onsite_score * r.weight_onsite / 100 +
    accuracy_score * r.weight_accuracy / 100
  base_score - (r.deduction_points.getD 0) + (r.bonus_points.getD 0)

/-- The `BEFORE INSERT OR UPDATE` trigger
`calculate_performance_score_trigger`: `NEW.final_score` is recomputed
from the row's other fields on every write. -/
def applyTrigger (r : PRRow) : PRRow :=
  { r with final_score := some (calcFinalScore r) }

/-! ## The `performance_records` store and its upsert -/

/-- Conflict key of `UNIQUE(user_id, period)`. -/
def prKey (r : PRRow) : String × String := (r.user_id, r.period)

/-- The payload sent by `handleGeneratePerformance` for one selected
employee: all scored columns but not the weight columns, which the
database keeps (existing values on conflict, column defaults
20/20/20/40 on a fresh insert). -/
structure PRInput where
  user_id : String
  branch_id : Option String
  group_id : Option String
  period : String
  actual_attendance : ℚ
  required_attendance : ℚ
  annotation_score : ℚ
  onsite_performance : ℚ
  total_inspected : ℚ
  total_errors : ℚ
  deduction_points : ℚ
  deduction_reason : Option String
  bonus_points : ℚ
  bonus_reason : Option String
  deriving Repr, DecidableEq

/-- The row an insert of `d` produces before the trigger runs: payload
columns plus the table's default weights
(`weight_annotation/attendance/onsite 20.00`, `weight_accuracy 40.00`). -/
def freshRow (d : PRInput) : PRRow :=
  { user_id := d.user_id
    branch_id := d.branch_id
    group_id := d.group_id
    period := d.period
    actual_attendance := d.actual_attendance
    required_attendance := d.required_attendance
    annotation_score := d.annotation_score
    onsite_performance := d.onsite_performance
    total_inspected := d.total_inspected
    total_errors := d.total_errors
    deduction_points := some d.deduction_points
    deduction_reason := d.deduction_reason
    bonus_points := some d.bonus_points
    bonus_reason := d.bonus_reason
    weight_annot := 20
    weight_attendance := 20
    weight_onsite := 20
    weight_accuracy := 40
    final_score := none }

/-- Overwriting an existing row `old` with payload `d` on conflict:
payload columns are replaced, the weight columns keep their stored
values. -/
def overwriteRow (old : PRRow) (d : PRInput) : PRRow :=
  { old with
    branch_id := d.branch_id
    group_id := d.group_id
    actual_attendance := d.actual_attendance
    required_attendance := d.required_attendance
    annotation_score := d.annotation_score
    onsite_performance := d.onsite_performance
    total_inspected := d.total_inspected
    total_errors := d.total_errors
    deduction_points := some d.deduction_points
    deduction_reason := d.deduction_reason
    bonus_points := some d.bonus_points
    bonus_reason := d.bonus_reason }

/-- Model of `supabase.from('performance_records').upsert(d, onConflict :=
'user_id,period')`: if a row with the conflict key exists it is
updated in place, otherwise a fresh row is appended; the score trigger
runs on the written row in both cases. -/
def upsertPR : List PRRow → PRInput → List PRRow
  | [], d => [applyTrigger (freshRow d)]
  | r :: rest, d =>
      if prKey r = (d.user_id, d.period) then
        applyTrigger (overwriteRow r d) :: rest
      else
        r :: upsertPR rest d

/-- The spec's worked example as an upsert payload:
actual_attendance 20, required_attendance 22, onsite 4, annotation 85,
inspected 200, errors 10, deduction 5, bonus 0 (weights 20/20/20/40 are
the table defaults `freshRow` adds). -/
def specExample : PRInput :=
  { user_id := "e1", branch_id := some "b1", group_id := some "g1",
    period := "2024-01",
    actual_attendance := 20, required_attendance := 22,
    annotation_score := 85, onsite_performance := 4,
    total_inspected := 200, total_errors := 10,
    deduction_points := 5, deduction_reason := none,
    bonus_points := 0, bonus_reason := none }

/-- The worked example with `deduction_points = 200`. -/
def exNegInput : PRInput := { specExample with deduction_points := 200 }

/-- The worked example with `bonus_points = 200` (and no deduction). -/
def exHighInput : PRInput :=
  { specExample with deduction_points := 0, bonus_points := 200 }

/-! ## Batch generation (`handleGeneratePerformance`, `Performance.tsx`) -/

/-- One roster row of the generation modal (`EmployeeData` in
`Performance.tsx`): per-row inputs plus the two independent flags
`selected` (include in the commit) and `batchSelected` (affected by
bulk edits). -/
structure EmployeeData where
  user_id : String
  name : String
  selected : Bool
  batchSelected : Bool
  actual_attendance : ℚ
  required_attendance : ℚ
  annotation_score : ℚ
  onsite_performance : ℚ
  total_inspected : ℚ
  total_errors : ℚ
  deduction_points : ℚ
  deduction_reason : String
  bonus_points : ℚ
  bonus_reason : String
  deriving Repr, DecidableEq

/-- A row of the `groups` table (fields the commit reads). -/
structure GroupRow where
  id : String
  branch_id : String
  name : String
  deriving Repr, DecidableEq

/-- The employees the commit iterates over:
`employeeDataList.filter(e => e.selected)`. -/
def selectedOf (lst : List EmployeeData) : List EmployeeData :=
  lst.filter (fun e => e.selected)

/-- The `recordData` object built for one employee inside the commit
loop: `branch_id` comes from the chosen group
(`groups.find(g => g.id === generateGroup)?.branch_id`), `group_id`
and `period` from the generation context, everything else from the
roster row; empty reason strings are sent as null. -/
def mkRecordData (groups : List GroupRow) (generateGroup generatePeriod : String)
    (emp : EmployeeData) : PRInput :=
  { user_id := emp.user_id
    branch_id := (groups.find? (fun g => g.id == generateGroup)).map (fun g => g.branch_id)
    group_id := some generateGroup
    period := generatePeriod
    actual_attendance := emp.actual_attendance
    required_attendance := emp.required_attendance
    annotation_score := emp.annotation_score
    onsite_performance := emp.onsite_performance
    total_inspected := emp.total_inspected
    total_errors := emp.total_errors
    deduction_points := emp.deduction_points
    deduction_reason := if emp.deduction_reason = "" then none else some emp.deduction_reason
    bonus_points := emp.bonus_points
    bonus_reason := if emp.bonus_reason = "" then none else some emp.bonus_reason }

/-- Sequence of independent upserts, one per payload, in roster order. -/
def foldUpserts (store : List PRRow) (ds : List PRInput) : List PRRow :=
  ds.foldl upsertPR store

/-- The net effect of the commit loop on the `performance_records`
table when every upsert succeeds: one upsert per selected employee. -/
def commitStore (groups : List GroupRow) (generateGroup generatePeriod : String)
    (store : List PRRow) (lst : List EmployeeData) : List PRRow :=
  foldUpserts store ((selectedOf lst).map (mkRecordData groups generateGroup generatePeriod))

/-- Outcome of one run of the commit loop: the table state plus the
tally variables `successCount`, `failCount`, `failedNames`, `lastError`
of `handleGeneratePerformance`. -/
structure GenResult where
  store : List PRRow
  successCount : ℕ
  failCount : ℕ
  failedNames : List String
  lastError : Option String
  deriving Repr, DecidableEq

/-- One iteration of the commit loop.  `errOf` models the per-upsert
server response (`error` of the awaited upsert): `none` is success,
`some msg` a failed upsert, which is tallied and does not touch the
table. -/
def commitStep (groups : List GroupRow) (generateGroup generatePeriod : String)
    (errOf : String → Option String) (res : GenResult) (emp : EmployeeData) : GenResult :=
  let d := mkRecordData groups generateGroup generatePeriod emp
  match errOf emp.user_id with
  | some msg =>
      { res with failCount := res.failCount + 1
                 failedNames := res.failedNames ++ [emp.name]
                 lastError := some msg }
  | none =>
      { res with store := upsertPR res.store d
                 successCount := res.successCount + 1 }

/-- The whole commit loop of `handleGeneratePerformance`: iterate over
the selected employees, one independent upsert each. -/
def runGenerate (groups : List GroupRow) (generateGroup generatePeriod : String)
    (errOf : String → Option String) (store : List PRRow)
    (lst : List EmployeeData) : GenResult :=
  (selectedOf lst).foldl (commitStep groups generateGroup generatePeriod errOf)
    { store := store, successCount := 0, failCount := 0, failedNames := [], lastError := none }

/-- All rows of the table carrying a given `(user_id, period)` key. -/
def rowsWithKey (store : List PRRow) (k : String × String) : List PRRow :=
  store.filter (fun r => prKey r = k)

/-- Well-formedness of the table: the `UNIQUE(user_id, period)`
constraint, no two rows share the conflict key. -/
def wfStore (store : List PRRow) : Prop :=
  (store.map prKey).Nodup

/-! ## Role-scoped listings (`Performance.tsx` / `QCAccuracy.tsx`) -/

inductive Role where
  | admin
  | manager
  | employee
  deriving DecidableEq, Repr

/-- The authenticated principal (`currentUser` of the auth context). -/
structure Principal where
  role : Role
  branch_id : Option String
  group_id : Option String
  deriving Repr, DecidableEq

/-- A row of the `users` table (fields the listings and the import
read). -/
structure AppUser where
  id : String
  name : String
  role : Role
  branch_id : Option String
  group_id : Option String
  deriving Repr, DecidableEq

/-- Calendar date of a `DATE` column. -/
structure Ymd where
  y : ℕ
  m : ℕ
  d : ℕ
  deriving DecidableEq, Repr

/-- Date order (SQL `DATE` comparison; equivalently the lexicographic
order of `YYYY-MM-DD` strings). -/
def ymdLe (a b : Ymd) : Bool :=
  decide (a.y < b.y) ||
    (decide (a.y = b.y) &&
      (decide (a.m < b.m) || (decide (a.m = b.m) && decide (a.d ≤ b.d))))

/-- A row of the `quality_inspections` table. -/
structure QIRow where
  user_id : String
  branch_id : String
  inspection_date : Ymd
  topic : String
  batch_name : String
  inspected_count : ℤ
  error_count : ℤ
  deriving DecidableEq, Repr

/-- JavaScript truthiness of a nullable string field
(`null`/`undefined` and `''` are falsy). -/
def optTruthy : Option String → Bool
  | none => false
  | some s => s != ""

/-- The quality-inspection listing of `QCAccuracy.tsx` `fetchData`:
a manager with a truthy `branch_id` gets an `eq('branch_id', …)`
filter; an employee with a truthy `group_id` gets an
`in('user_id', members)` filter over the users of their group — but
only when that member lookup is non-empty; every other principal falls
through to the unfiltered query. -/
def qcListing (p : Principal) (users : List AppUser) (rows : List QIRow) : List QIRow :=
  if p.role = Role.manager ∧ optTruthy p.branch_id then
    rows.filter (fun r => (some r.branch_id : Option String) == p.branch_id)
  else if p.role = Role.employee ∧ optTruthy p.group_id then
    let members := (users.filter (fun u => u.group_id == p.group_id)).map (fun u => u.id)
    if members.isEmpty then rows else rows.filter (fun r => members.contains r.user_id)
  else rows

/-- The performance-record listing of `Performance.tsx` `fetchData`:
for a manager the fetched rows are filtered by
`r.branch_id === currentUser.branch_id` (strict equality, no
truthiness guard); other roles see every row. -/
def perfListing (p : Principal) (rows : List PRRow) : List PRRow :=
  if p.role = Role.manager then rows.filter (fun r => r.branch_id == p.branch_id) else rows

/-! ## Period aggregation (`fetchQCData`, `Performance.tsx`) -/

/-- Leap-year rule of the JavaScript `Date` (proleptic Gregorian). -/
def isLeapYear (y : ℕ) : Bool :=
  (y % 4 == 0 && y % 100 != 0) || (y % 400 == 0)

/-- Model of `new Date(year, month, 0).getDate()` — the number of days of
1-based `month` of `year`. -/
def daysInMonth (y m : ℕ) : ℕ :=
  if m == 2 then (if isLeapYear y then 29 else 28)
  else if m == 4 || m == 6 || m == 9 || m == 11 then 30
  else 31

/-- The date-range and user filter of the `fetchQCData` query:
`gte(inspection_date, 'YYYY-MM-01')`,
`lte(inspection_date, 'YYYY-MM-<lastDay>')`. -/
def qcInRange (y mo : ℕ) (r : QIRow) : Bool :=
  ymdLe ⟨y, mo, 1⟩ r.inspection_date && ymdLe r.inspection_date ⟨y, mo, daysInMonth y mo⟩

/-- Rows the `fetchQCData` query returns for a user set and a period. -/
def fetchQCRows (userIds : List String) (y mo : ℕ) (table : List QIRow) : List QIRow :=
  table.filter (fun r => qcInRange y mo r && userIds.contains r.user_id)

/-- One step of the `qcData.forEach` accumulation: add the row's counts
to the user's running pair, starting from `{inspected: 0, errors: 0}`. -/
def qsAdd : List (String × (ℤ × ℤ)) → String → ℤ → ℤ → List (String × (ℤ × ℤ))
  | [], uid, i, e => [(uid, (i, e))]
  | (u, (pi, pe)) :: rest, uid, i, e =>
      if u = uid then (u, (pi + i, pe + e)) :: rest
      else (u, (pi, pe)) :: qsAdd rest uid i e

/-- The `qcSummary` map built from the fetched rows. -/
def buildSummary (rows : List QIRow) : List (String × (ℤ × ℤ)) :=
  rows.foldl (fun m r => qsAdd m r.user_id r.inspected_count r.error_count) []

/-- Model of `qcSummary.get(id) || (inspected 0, errors 0)` — the consumer's
default for employees with no aggregates. -/
def qcGet (m : List (String × (ℤ × ℤ))) (uid : String) : ℤ × ℤ :=
  (m.lookup uid).getD (0, 0)

/-- Full period aggregation for one employee: fetch, accumulate, read
with default. -/
def periodTotals (userIds : List String) (y mo : ℕ) (table : List QIRow)
    (uid : String) : ℤ × ℤ :=
  qcGet (buildSummary (fetchQCRows userIds y mo table)) uid

/-! ## Import pipeline (`ImportData` page, unnamed source `part_004`) -/

/-- Whitespace for the purposes of `\s`, `trim()` and blank-line
filtering (the characters that occur in tabular text). -/
def isWS (c : Char) : Bool := c == ' ' || c == '\t' || c == '\r' || c == '\n'

/-- True on `','` and `'\t'` — the `[,\t]` delimiter class. -/
def isCT (c : Char) : Bool := c == ',' || c == '\t'

/-- JavaScript `String.prototype.trim`. -/
def trimCh (l : List Char) : List Char :=
  ((l.dropWhile isWS).reverse.dropWhile isWS).reverse

/-- JavaScript `split(sep)` for a one-character separator. -/
def splitChar (sep : Char) : List Char → List (List Char)
  | [] => [[]]
  | c :: rest =>
      let r := splitChar sep rest
      if c = sep then [] :: r
      else
        match r with
        | h :: t => (c :: h) :: t
        | [] => [[c]]

/-- Digit-string value (the integer a run of decimal digits denotes). -/
def digitsToNat (l : List Char) : ℕ :=
  l.foldl (fun acc c => 10 * acc + (c.toNat - 48)) 0

/-- JavaScript `Number(string)` on the plain decimal fragment: an
optional sign, then digits with at most one decimal point
(`''` converts to `0`).  `none` models `NaN`; exponent, hexadecimal,
`Infinity` and whitespace-padded forms are outside the model. -/
def toNumberCore (l : List Char) : Option ℚ :=
  if l.isEmpty then some 0
  else
    let sgn : ℚ := if l.headD ' ' == '-' then -1 else 1
    let body := if l.headD ' ' == '-' || l.headD ' ' == '+' then l.drop 1 else l
    let ip := body.takeWhile (fun c => c ≠ '.')
    let rest := body.dropWhile (fun c => c ≠ '.')
    match rest with
    | [] =>
        if !body.isEmpty && body.all Char.isDigit then
          some (sgn * digitsToNat body)
        else none
    | _ :: fp =>
        if (!ip.isEmpty || !fp.isEmpty) && ip.all Char.isDigit && fp.all Char.isDigit then
          some (sgn * ((digitsToNat ip : ℚ) + digitsToNat fp / 10 ^ fp.length))
        else none

/-- Model of `Number(s)` on a string. -/
def toNumber? (s : String) : Option ℚ := toNumberCore s.data

/-- Model of `period.split('-').map(Number)` on a `YYYY-MM` period string
(digit-only components, which is all the `Number` conversion meets on
period strings). -/
def parsePeriod (s : String) : Option (ℕ × ℕ) :=
  match splitChar '-' s.data with
  | [ys, ms] =>
      if !ys.isEmpty && ys.all Char.isDigit && !ms.isEmpty && ms.all Char.isDigit then
        some (digitsToNat ys, digitsToNat ms)
      else none
  | _ => none

/-- Model of `Number(s) || 0` — the import's count-field coercion (`NaN` to 0). -/
def jsNumOr0 (s : String) : ℚ := (toNumber? s).getD 0

/-- Pattern `^\d{4}-\d{2}-\d{2}$` of `parseDate`. -/
def isoCore : List Char → Bool
  | [a, b, c, d, '-', e, f, '-', g, h] =>
      a.isDigit && b.isDigit && c.isDigit && d.isDigit &&
        e.isDigit && f.isDigit && g.isDigit && h.isDigit
  | _ => false

/-- Pattern `^\d{4}/\d{1,2}/\d{1,2}$` of `parseDate`. -/
def slashCore : List Char → Bool
  | [a, b, c, d, '/', m, '/', e] =>
      a.isDigit && b.isDigit && c.isDigit && d.isDigit && m.isDigit && e.isDigit
  | [a, b, c, d, '/', m, n, '/', e] =>
      a.isDigit && b.isDigit && c.isDigit && d.isDigit && m.isDigit && n.isDigit && e.isDigit
  | [a, b, c, d, '/', m, '/', e, f] =>
      a.isDigit && b.isDigit && c.isDigit && d.isDigit && m.isDigit && e.isDigit && f.isDigit
  | [a, b, c, d, '/', m, n, '/', e, f] =>
      a.isDigit && b.isDigit && c.isDigit && d.isDigit &&
        m.isDigit && n.isDigit && e.isDigit && f.isDigit
  | _ => false

/-- Pattern `^\d{4}\.\d{1,2}\.\d{1,2}$` of `parseDate`. -/
def dotCore : List Char → Bool
  | [a, b, c, d, '.', m, '.', e] =>
      a.isDigit && b.isDigit && c.isDigit && d.isDigit && m.isDigit && e.isDigit
  | [a, b, c, d, '.', m, n, '.', e] =>
      a.isDigit && b.isDigit && c.isDigit && d.isDigit && m.isDigit && n.isDigit && e.isDigit
  | [a, b, c, d, '.', m, '.', e, f] =>
      a.isDigit && b.isDigit && c.isDigit && d.isDigit && m.isDigit && e.isDigit && f.isDigit
  | [a, b, c, d, '.', m, n, '.', e, f] =>
      a.isDigit && b.isDigit && c.isDigit && d.isDigit &&
        m.isDigit && n.isDigit && e.isDigit && f.isDigit
  | _ => false

/-- Model of `padStart(2, '0')` on a month/day substring. -/
def padTo2 (s : String) : String :=
  if s.data.length = 0 then "00" else if s.data.length = 1 then "0" ++ s else s

/-- Reassembly `y + '-' + m.padStart(2,'0') + '-' + d.padStart(2,'0')`
after splitting on the separator. -/
def ymdJoin : List String → String
  | [ys, ms, ds] => ys ++ "-" ++ padTo2 ms ++ "-" ++ padTo2 ds
  | _ => ""

/-- Truncation toward zero, the coercion a fractional millisecond value
receives in the `Date` constructor. -/
def jsTrunc (q : ℚ) : ℤ := if 0 ≤ q then q.floor else q.ceil

/-- Proleptic-Gregorian civil date of a day count relative to
1970-01-01 (the calendar the JavaScript `Date`/`toISOString` pair
implements), computed with floor divisions. -/
def civilFromDays (z0 : ℤ) : ℤ × ℤ × ℤ :=
  let z := z0 + 719468
  let era := Int.fdiv z 146097
  let doe := z - era * 146097
  let yoe := Int.fdiv (doe - Int.fdiv doe 1460 + Int.fdiv doe 36524 - Int.fdiv doe 146096) 365
  let y := yoe + era * 400
  let doy := doe - (365 * yoe + Int.fdiv yoe 4 - Int.fdiv yoe 100)
  let mp := Int.fdiv (5 * doy + 2) 153
  let d := doy - Int.fdiv (153 * mp + 2) 5 + 1
  let m := mp + (if mp < 10 then 3 else -9)
  (y + (if m ≤ 2 then 1 else 0), m, d)

/-- Zero-padded 4-digit year. -/
def pad4 (n : ℤ) : String :=
  let s := toString n.toNat
  if s.data.length = 1 then "000" ++ s
  else if s.data.length = 2 then "00" ++ s
  else if s.data.length = 3 then "0" ++ s
  else s

/-- Zero-padded 2-digit month/day. -/
def pad2n (n : ℤ) : String :=
  let s := toString n.toNat
  if s.data.length = 1 then "0" ++ s else s

/-- Model of `new Date(ms).toISOString().split('T')[0]` — the UTC calendar date
of a millisecond timestamp. -/
def msToDateStr (ms : ℤ) : String :=
  let day := Int.fdiv ms 86400000
  let c := civilFromDays day
  pad4 c.1 ++ "-" ++ pad2n c.2.1 ++ "-" ++ pad2n c.2.2

/-- The `parseDate` of the import page (`part_004` version): empty
strings are rejected; ISO dates pass through; slash and dot dates are
normalised with zero padding; otherwise any string `Number()`-convertible
to a positive value is read as a spreadsheet serial day number through
the fixed epoch offset `(num - 25569) * 86400 * 1000` milliseconds;
everything else is `null`. -/
def parseDate (s : String) : Option String :=
  if s.data.isEmpty then none
  else if isoCore s.data then some s
  else if slashCore s.data then some (ymdJoin ((splitChar '/' s.data).map String.mk))
  else if dotCore s.data then some (ymdJoin ((splitChar '.' s.data).map String.mk))
  else
    match toNumber? s with
    | some q => if 0 < q then some (msToDateStr (jsTrunc ((q - 25569) * 86400000))) else none
    | none => none

/-- Tail `\d{1,2}$` of the `isValidDateFormat` pattern. -/
def tailDigits12 : List Char → Bool
  | [a] => a.isDigit
  | [a, b] => a.isDigit && b.isDigit
  | _ => false

/-- The `[-\/.]` separator class of `isValidDateFormat`. -/
def sepCh (c : Char) : Bool := c == '-' || c == '/' || c == '.'

/-- Middle and tail `\d{1,2} sep \d{1,2}` of the
`isValidDateFormat` pattern. -/
def midPart : List Char → Bool
  | a :: s :: rest =>
      a.isDigit &&
        ((sepCh s && tailDigits12 rest) ||
          (s.isDigit &&
            match rest with
            | s2 :: rest2 => sepCh s2 && tailDigits12 rest2
            | [] => false))
  | _ => false

/-- Pattern `^\d{4} sep \d{1,2} sep \d{1,2}$` with independent separators. -/
def dateFmtCore : List Char → Bool
  | a :: b :: c :: d :: s1 :: rest =>
      a.isDigit && b.isDigit && c.isDigit && d.isDigit && sepCh s1 && midPart rest
  | _ => false

/-- Model of `isValidDateFormat` of the import page: the loose
year-separator-month-separator-day pattern, or a pure digit string
(spreadsheet serial). -/
def validDateFormat (s : String) : Bool :=
  dateFmtCore s.data || (!s.data.isEmpty && s.data.all Char.isDigit)

/-- Splitter for one pasted line, the regex
`/[,\t]+|\s{2,}/`: a comma/tab run, or at least two whitespace
characters, separates values (first alternative tried first, as in the
regex). Fuel-indexed so that it is structural; the fuel is always the
input length plus one. -/
def splitDelimsF : ℕ → List Char → List Char → List String
  | 0, cur, _ => [String.mk cur.reverse]
  | _ + 1, cur, [] => [String.mk cur.reverse]
  | fuel + 1, cur, c :: rest =>
      if isCT c then
        String.mk cur.reverse :: splitDelimsF fuel [] (rest.dropWhile isCT)
      else if isWS c && (match rest with | c2 :: _ => isWS c2 | [] => false) then
        String.mk cur.reverse :: splitDelimsF fuel [] (rest.dropWhile isWS)
      else
        splitDelimsF fuel (c :: cur) rest

/-- Model of the split `line.split(delims)` on one line. -/
def jsSplitDelims (s : String) : List String :=
  splitDelimsF (s.data.length + 1) [] s.data

/-- Model of `text.trim().split(newline).filter(line => line.trim())`. -/
def linesOf (text : String) : List String :=
  ((splitChar '\n' (trimCh text.data)).map String.mk).filter
    (fun l => !(trimCh l.data).isEmpty)

/-- A parsed tabular row.  The source field names are Chinese
(`日期` date, `标注人员姓名` worker name, `所属topic` topic,
`批次名称` batch name, `被质检题目数量` inspected count,
`错误题目数量` error count); they are transliterated
`rdate / rname / rtopic / rbatch / rinspected / rerrors` here. -/
structure ExcelRow where
  rdate : String
  rname : String
  rtopic : String
  rbatch : String
  rinspected : ℚ
  rerrors : ℚ
  deriving DecidableEq, Repr

/-- Model of `line.split(delims).map(v => v.trim()).filter(Boolean)`. -/
def parseLineVals (line : String) : List String :=
  ((jsSplitDelims line).map (fun v => String.mk (trimCh v.data))).filter (fun v => v != "")

/-- Build an `ExcelRow` from positional values (missing cells default
to `''`, counts through `Number(…) || 0`). -/
def rowOfValues (vs : List String) : ExcelRow :=
  { rdate := vs.getD 0 ""
    rname := vs.getD 1 ""
    rtopic := vs.getD 2 ""
    rbatch := vs.getD 3 ""
    rinspected := jsNumOr0 (vs.getD 4 "")
    rerrors := jsNumOr0 (vs.getD 5 "") }

/-- First value of the first pasted line (`firstLineValues[0]`,
`''` when the line has no values, which compares the same way). -/
def firstValueOf (line : String) : String := (parseLineVals line).getD 0 ""

/-- Header rule of `parseCSV`/`parseExcel`:
`firstValue === '日期' || !isValidDateFormat(firstValue)` drops the
first row. -/
def skipsHeader (fv : String) : Bool := fv == "日期" || !validDateFormat fv

/-- Model of `parseCSV` of `part_004`: split into non-blank lines, drop a header
line per `skipsHeader`, convert every remaining line positionally. -/
def parseCSV (text : String) : List ExcelRow :=
  let lines := linesOf text
  if lines.isEmpty then []
  else
    let start := if skipsHeader (firstValueOf (lines.getD 0 "")) then 1 else 0
    (lines.drop start).map (fun line => rowOfValues (parseLineVals line))

/-- Model of `parseExcel` of `part_004` on a sheet already rendered to cell
strings (`String(row[i] || '')`): same header rule on the first cell of
the first row, then every non-empty remaining row positionally. -/
def parseExcel (data : List (List String)) : List ExcelRow :=
  if data.isEmpty then []
  else
    let fv := (data.getD 0 []).getD 0 ""
    let start := if skipsHeader fv then 1 else 0
    ((data.drop start).filter (fun row => !row.isEmpty)).map rowOfValues

/-- Model of `new Map(users.filter(u => u.branch_id === selectedBranch).map(u =>
[u.name, u])).get(name)` — exact in-branch name lookup, later
duplicates overwriting earlier ones as in a JavaScript `Map`. -/
def nameToUser (users : List AppUser) (branch : String) (nm : String) : Option AppUser :=
  List.lookup nm
    (((users.filter (fun u => u.branch_id == some branch)).map (fun u => (u.name, u))).reverse)

/-- A pending `quality_inspections` payload accumulated in `batchMap`. -/
structure BatchEntry where
  user_id : String
  inspection_date : String
  topic : String
  batch_name : String
  inspected_count : ℚ
  error_count : ℚ
  deriving DecidableEq, Repr

/-- Composite map key `` `${user.id}-${date}-${row.rbatch}` ``. -/
def rowKey (uid date batch : String) : String :=
  uid ++ "-" ++ date ++ "-" ++ batch

/-- Payload for a freshly seen key. -/
def entryOf (u : AppUser) (date : String) (row : ExcelRow) : BatchEntry :=
  { user_id := u.id
    inspection_date := date
    topic := row.rtopic
    batch_name := row.rbatch
    inspected_count := row.rinspected
    error_count := row.rerrors }

/-- The `batchMap` update: accumulate counts onto an existing key
(`existing.inspected_count += …`), otherwise append the new entry
(`batchMap.set`), preserving insertion order as a JavaScript `Map`
does. -/
def bmAdd : List (String × BatchEntry) → String → BatchEntry → List (String × BatchEntry)
  | [], k, e => [(k, e)]
  | (k0, e0) :: rest, k, e =>
      if k0 = k then
        (k0, { e0 with
                inspected_count := e0.inspected_count + e.inspected_count
                error_count := e0.error_count + e.error_count }) :: rest
      else (k0, e0) :: bmAdd rest k e

/-- State threaded through the row loop of `processImport`. -/
structure ProcState where
  errors : List String
  failed : ℕ
  batchMap : List (String × BatchEntry)
  deriving DecidableEq, Repr

/-- One iteration of the row loop of `processImport`: unmatched name →
per-row error; unparseable date → per-row error; otherwise merge into
`batchMap`. -/
def procStep (users : List AppUser) (branch : String) (st : ProcState)
    (row : ExcelRow) : ProcState :=
  match nameToUser users branch row.rname with
  | none =>
      { st with errors := st.errors ++ ["找不到员工: " ++ row.rname]
                failed := st.failed + 1 }
  | some u =>
      match parseDate row.rdate with
      | none =>
          { st with errors := st.errors ++ ["日期格式错误: " ++ row.rdate]
                    failed := st.failed + 1 }
      | some date =>
          { st with batchMap := bmAdd st.batchMap (rowKey u.id date row.rbatch) (entryOf u date row) }

/-- The whole row loop of `processImport` (the stage before the
store-side upserts). -/
def procRows (users : List AppUser) (branch : String) (rows : List ExcelRow) : ProcState :=
  rows.foldl (procStep users branch) ⟨[], 0, []⟩

/-- The per-row rejection reason, if any (name first, then date, as the
loop checks them). -/
def rowError (users : List AppUser) (branch : String) (row : ExcelRow) : Option String :=
  match nameToUser users branch row.rname with
  | none => some ("找不到员工: " ++ row.rname)
  | some _ =>
      match parseDate row.rdate with
      | none => some ("日期格式错误: " ++ row.rdate)
      | some _ => none

/-- The keyed payload of a row that passes both checks. -/
def validEntry (users : List AppUser) (branch : String) (row : ExcelRow) :
    Option (String × BatchEntry) :=
  match nameToUser users branch row.rname with
  | none => none
  | some u =>
      match parseDate row.rdate with
      | none => none
      | some date => some (rowKey u.id date row.rbatch, entryOf u date row)

/-- Folding keyed payloads into a fresh map. -/
def buildMap (entries : List (String × BatchEntry)) : List (String × BatchEntry) :=
  entries.foldl (fun m ke => bmAdd m ke.1 ke.2) []

/-- Inspected-count total the map holds for a key. -/
def keyIns (m : List (String × BatchEntry)) (k : String) : ℚ :=
  ((List.lookup k m).map (fun e => e.inspected_count)).getD 0

/-- Error-count total the map holds for a key. -/
def keyErrs (m : List (String × BatchEntry)) (k : String) : ℚ :=
  ((List.lookup k m).map (fun e => e.error_count)).getD 0

/-- The client preview formula `calcPreviewScore` of `Performance.tsx`
(the numeric value; the page renders it with `toFixed(2)`): hard-coded
weights 20/20/20/40. -/
def calcPreviewScore (emp : EmployeeData) : ℚ :=
  let attendanceScore : ℚ :=
    if 0 < emp.required_attendance then
      emp.actual_attendance / emp.required_attendance * 100
    else 100
  let onsiteScore : ℚ := emp.onsite_performance / 5 * 100
  let accuracyScore : ℚ :=
    if 0 < emp.total_inspected then
      (1 - emp.total_errors / emp.total_inspected) * 100
    else 100
  let baseScore : ℚ :=
    emp.annotation_score * 20 / 100 + attendanceScore * 20 / 100 +
      onsiteScore * 20 / 100 + accuracyScore * 40 / 100
  baseScore - emp.deduction_points + emp.bonus_points

/-- Conflict key of a payload. -/
def inputKey (d : PRInput) : String × String := (d.user_id, d.period)

/-- A row is absorbing for a payload when rewriting it with that
payload reproduces it. -/
def absorbs (d : PRInput) (r : PRRow) : Prop :=
  applyTrigger (overwriteRow r d) = r

/-! ## Claim C1 -/

/-- The composite-score formula exactly as the claim words it:
`annotation_score*weight_annotation/100 + attendance_score*weight_attendance/100
+ onsite_score*weight_onsite/100 + accuracy_score*weight_accuracy/100
- deduction_points + bonus_points`, with
`attendance_score = actual/required*100` when `required > 0` else 100,
`onsite_score = onsite/5*100`, and
`accuracy_score = (1 - errors/inspected)*100` when `inspected > 0` else
100.  (Claim-side definition, for comparison with `calcFinalScore`.) -/
def claimFormula (r : PRRow) (dp bp : ℚ) : ℚ :=
  r.annotation_score * r.weight_annot / 100 +
    (if 0 < r.required_attendance then
        r.actual_attendance / r.required_attendance * 100
      else 100) * r.weight_attendance / 100 +
    (r.onsite_performance / 5 * 100) * r.weight_onsite / 100 +
    (if 0 < r.total_inspected then (1 - r.total_errors / r.total_inspected) * 100
      else 100) * r.weight_accuracy / 100 -
    dp + bp

/-- A stored row whose score agrees with the claim's formula. -/
def scoreOK (r : PRRow) : Prop :=
  ∀ dp bp : ℚ, r.deduction_points = some dp → r.bonus_points = some bp →
    r.final_score = some (claimFormula r dp bp)

/-! ## Claims C3 and C10: role-scoped listings -/

/-- The quality-inspection member list an employee principal's filter
uses. -/
def groupMemberIds (p : Principal) (users : List AppUser) : List String :=
  (users.filter (fun u => u.group_id == p.group_id)).map (fun u => u.id)

/-- The claim's employee-side property as stated: every returned
inspection row belongs to a user of the principal's own group.
(Claim-side definition, compared against `qcListing`.) -/
def qcScoped (p : Principal) (users : List AppUser) (rows : List QIRow) : Prop :=
  ∀ r ∈ qcListing p users rows, ∃ u ∈ users, u.id = r.user_id ∧ u.group_id = p.group_id

/-- A concrete inspection row used in the scoping counterexamples. -/
def cexRow : QIRow :=
  { user_id := "u9", branch_id := "b2", inspection_date := ⟨2024, 1, 2⟩,
    topic := "强化", batch_name := "批次A", inspected_count := 30, error_count := 2 }

/-- A concrete user outside any group of the counterexample principal. -/
def cexUser : AppUser :=
  { id := "u9", name := "丙", role := Role.employee,
    branch_id := some "b2", group_id := some "g2" }

/-! ## Claim C8: period aggregation -/

/-- Inspected-count total of the rows of one user. -/
def sumI (rows : List QIRow) (uid : String) : ℤ :=
  ((rows.filter (fun r => r.user_id == uid)).map (fun r => r.inspected_count)).sum

/-- Error-count total of the rows of one user. -/
def sumE (rows : List QIRow) (uid : String) : ℤ :=
  ((rows.filter (fun r => r.user_id == uid)).map (fun r => r.error_count)).sum

/-! ## Claim C7: within-batch merge -/

/-- Total inspected count a key's raw entries contribute. -/
def keyTotalIns (entries : List (String × BatchEntry)) (k : String) : ℚ :=
  ((entries.filter (fun e => e.1 == k)).map (fun e => e.2.inspected_count)).sum

/-- Total error count a key's raw entries contribute. -/
def keyTotalErrs (entries : List (String × BatchEntry)) (k : String) : ℚ :=
  ((entries.filter (fun e => e.1 == k)).map (fun e => e.2.error_count)).sum

/-- A concrete pending entry for the merge witness. -/
def be1 : BatchEntry :=
  { user_id := "u1", inspection_date := "2024-01-02", topic := "强化",
    batch_name := "批次A", inspected_count := 30, error_count := 2 }

/-- A second entry under the same key. -/
def be2 : BatchEntry := { be1 with inspected_count := 5, error_count := 1 }

/-- An in-branch employee for the import witness. -/
def demoUser : AppUser :=
  { id := "u1", name := "张三", role := Role.employee,
    branch_id := some "b1", group_id := some "g1" }

/-- A well-formed import row (dot-format date). -/
def demoGoodRow : ExcelRow :=
  { rdate := "2025.12.1", rname := "张三", rtopic := "强化",
    rbatch := "批次A", rinspected := 30, rerrors := 2 }

/-- The same row with an unparseable date. -/
def demoBadRow : ExcelRow := { demoGoodRow with rdate := "2024-13" }

/-! ## Claim C5: header detection -/

/-- The header-skip condition exactly as the claim words it: the first
row is dropped iff its first cell is not a parseable date AND is not
literally the header label.  (Claim-side definition, compared against
`skipsHeader`.) -/
def claimHeaderSkip (fv : String) : Bool :=
  (parseDate fv).isNone && fv != "日期"

/-- Number of data rows the claim predicts for a pasted text. -/
def claimC5Rows (text : String) : ℕ :=
  let lines := linesOf text
  if claimHeaderSkip (firstValueOf (lines.getD 0 "")) then lines.length - 1
  else lines.length

/-- First counterexample text: the first cell is literally `日期`. -/
def cexTextLabel : String :=
  "日期,标注人员姓名,所属topic,批次名称,被质检题目数量,错误题目数量\n2024-01-02,张三,强化,批次A,30,2"

/-- Second counterexample text: the first cell `2025-1-1` matches the
loose format pattern but is not parseable by `parseDate`. -/
def cexTextLoose : String :=
  "2025-1-1,张三,强化,批次A,30,2\n2024-01-02,李四,强化,批次B,20,1"

/-! ## Lemmas, claims, counterexamples and witnesses -/

/-! ## Lemmas about the upsert on `performance_records` -/

theorem prKey_applyTrigger (r : PRRow) : prKey (applyTrigger r) = prKey r := rfl

theorem prKey_freshRow (d : PRInput) : prKey (freshRow d) = (d.user_id, d.period) := rfl

theorem prKey_overwriteRow (r : PRRow) (d : PRInput) :
    prKey (overwriteRow r d) = prKey r := rfl

theorem upsertPR_map_prKey (s : List PRRow) (d : PRInput) :
    (upsertPR s d).map prKey =
      if inputKey d ∈ s.map prKey then s.map prKey else s.map prKey ++ [inputKey d] := by
  induction s with
  | nil => simp [upsertPR, prKey_applyTrigger, prKey_freshRow, inputKey]
  | cons r rest ih =>
      by_cases h : prKey r = (d.user_id, d.period)
      · have hk : inputKey d = prKey r := by simp [inputKey, h]
        have hmem : inputKey d ∈ (r :: rest).map prKey := by simp [hk]
        rw [if_pos hmem]
        simp only [upsertPR, if_pos h, List.map_cons, prKey_applyTrigger,
          prKey_overwriteRow]
      · have hne : inputKey d ≠ prKey r := by
          intro hc
          exact h (by simpa [inputKey] using hc.symm)
        simp only [upsertPR, if_neg h, List.map_cons, ih]
        by_cases hm : inputKey d ∈ rest.map prKey
        · rw [if_pos hm, if_pos (by simp [List.mem_cons, hm])]
        · rw [if_neg hm, if_neg (by simp [List.mem_cons, hne, hm])]
          simp

theorem wfStore_upsertPR {s : List PRRow} (hs : wfStore s) (d : PRInput) :
    wfStore (upsertPR s d) := by
  unfold wfStore at hs ⊢
  rw [upsertPR_map_prKey]
  by_cases hm : inputKey d ∈ s.map prKey
  · simpa [hm] using hs
  · simp only [hm, if_false]
    rw [List.nodup_append]
    refine ⟨hs, List.nodup_singleton _, ?_⟩
    intro x hx hx1
    simp only [List.mem_singleton] at hx1
    exact hm (hx1 ▸ hx)

theorem rowsWithKey_eq_nil_iff (s : List PRRow) (k : String × String) :
    rowsWithKey s k = [] ↔ k ∉ s.map prKey := by
  induction s with
  | nil => simp [rowsWithKey]
  | cons r rest ih =>
      by_cases h : prKey r = k
      · simp [rowsWithKey, h]
      · simp only [rowsWithKey] at ih ⊢
        simp [List.filter_cons, h, ih, Ne.symm h]

theorem upsertPR_of_not_mem {s : List PRRow} {d : PRInput}
    (h : inputKey d ∉ s.map prKey) :
    upsertPR s d = s ++ [applyTrigger (freshRow d)] := by
  induction s with
  | nil => simp [upsertPR]
  | cons r rest ih =>
      simp only [List.map_cons, List.mem_cons, not_or] at h
      have hk : ¬ prKey r = (d.user_id, d.period) := by
        intro hc
        exact h.1 (by simpa [inputKey] using hc.symm)
      simp [upsertPR, hk, ih h.2]

theorem rowsWithKey_append (s t : List PRRow) (k : String × String) :
    rowsWithKey (s ++ t) k = rowsWithKey s k ++ rowsWithKey t k := by
  simp [rowsWithKey]

theorem rowsWithKey_upsertPR_other {k : String × String} {d : PRInput}
    (h : k ≠ inputKey d) (s : List PRRow) :
    rowsWithKey (upsertPR s d) k = rowsWithKey s k := by
  induction s with
  | nil =>
      have hne : ¬ prKey (applyTrigger (freshRow d)) = k := by
        rw [prKey_applyTrigger, prKey_freshRow]
        exact fun hc => h hc.symm
      simp [upsertPR, rowsWithKey, hne]
  | cons r rest ih =>
      by_cases hk : prKey r = (d.user_id, d.period)
      · have h1 : ¬ prKey (applyTrigger (overwriteRow r d)) = k := by
          rw [prKey_applyTrigger, prKey_overwriteRow, hk]
          exact fun hc => h hc.symm
        have h2 : ¬ prKey r = k := by
          rw [hk]; exact fun hc => h hc.symm
        simp only [upsertPR, if_pos hk, rowsWithKey, List.filter_cons]
        simp [h1, h2]
      · simp only [upsertPR, if_neg hk]
        simp only [rowsWithKey, List.filter_cons] at ih ⊢
        by_cases hrk : prKey r = k <;> simp [hrk, ih]

theorem rowsWithKey_upsertPR_self_fresh {s : List PRRow} {d : PRInput}
    (h : inputKey d ∉ s.map prKey) :
    rowsWithKey (upsertPR s d) (inputKey d) = [applyTrigger (freshRow d)] := by
  rw [upsertPR_of_not_mem h, rowsWithKey_append,
    (rowsWithKey_eq_nil_iff s (inputKey d)).mpr h]
  simp [rowsWithKey, prKey_applyTrigger, prKey_freshRow, inputKey]

theorem length_rowsWithKey_of_wf {s : List PRRow} (hs : wfStore s)
    {k : String × String} (hk : k ∈ s.map prKey) :
    (rowsWithKey s k).length = 1 := by
  induction s with
  | nil => simp at hk
  | cons r rest ih =>
      simp only [wfStore, List.map_cons, List.nodup_cons] at hs
      simp only [List.map_cons, List.mem_cons] at hk
      rcases hk with hk | hk
      · have hrest : rowsWithKey rest k = [] := by
          rw [rowsWithKey_eq_nil_iff, hk]
          exact hs.1
        simp only [rowsWithKey, List.filter_cons] at hrest ⊢
        simp [hk.symm, hrest]
      · have hrk : ¬ prKey r = k := fun hc => hs.1 (hc ▸ hk)
        have ih' := ih hs.2 hk
        simp only [rowsWithKey, List.filter_cons] at ih' ⊢
        simp [hrk, ih']

/-- Rewriting a row that a previous upsert of the same payload wrote
reproduces it: the overwrite replaces the payload columns with the same
values, keeps the weights, and the trigger recomputes the same score. -/
theorem overwrite_written_overwrite (r : PRRow) (d : PRInput) :
    applyTrigger (overwriteRow (applyTrigger (overwriteRow r d)) d) =
      applyTrigger (overwriteRow r d) := rfl

theorem overwrite_written_fresh (d : PRInput) :
    applyTrigger (overwriteRow (applyTrigger (freshRow d)) d) =
      applyTrigger (freshRow d) := rfl

/-- If a row with the payload's key is already present and every such
row is absorbing, a repeated upsert leaves the table unchanged. -/
theorem upsertPR_stable {s : List PRRow} {d : PRInput}
    (hmem : inputKey d ∈ s.map prKey)
    (habs : ∀ r ∈ s, prKey r = inputKey d → absorbs d r) :
    upsertPR s d = s := by
  induction s with
  | nil => simp at hmem
  | cons r rest ih =>
      by_cases hk : prKey r = (d.user_id, d.period)
      · have := habs r (by simp) (by simpa [inputKey] using hk)
        simp only [upsertPR, if_pos hk]
        rw [this]
      · have hmem' : inputKey d ∈ rest.map prKey := by
          rcases (by simpa using hmem : inputKey d = prKey r ∨
              inputKey d ∈ rest.map prKey) with hc | hm
          · exact absurd (by simpa [inputKey] using hc.symm) hk
          · exact hm
        simp only [upsertPR, if_neg hk]
        rw [ih hmem' (fun x hx he => habs x (by simp [hx]) he)]

/-- Every row an upsert writes is a trigger image; the others come from
the previous table state. -/
theorem mem_upsertPR {r : PRRow} {s : List PRRow} {d : PRInput}
    (h : r ∈ upsertPR s d) :
    r ∈ s ∨ (∃ r0, r = applyTrigger (overwriteRow r0 d)) ∨ r = applyTrigger (freshRow d) := by
  induction s with
  | nil =>
      simp only [upsertPR, List.mem_singleton] at h
      exact Or.inr (Or.inr h)
  | cons r0 rest ih =>
      by_cases hk : prKey r0 = (d.user_id, d.period)
      · simp only [upsertPR, if_pos hk, List.mem_cons] at h
        rcases h with h | h
        · exact Or.inr (Or.inl ⟨r0, h⟩)
        · exact Or.inl (List.mem_cons_of_mem _ h)
      · simp only [upsertPR, if_neg hk, List.mem_cons] at h
        rcases h with h | h
        · exact Or.inl (by simp [h])
        · rcases ih h with h' | h'
          · exact Or.inl (List.mem_cons_of_mem _ h')
          · exact Or.inr h'

theorem calcFinalScore_eq_claimFormula {r : PRRow} {dp bp : ℚ}
    (hd : r.deduction_points = some dp) (hb : r.bonus_points = some bp) :
    calcFinalScore r = claimFormula r dp bp := by
  simp [calcFinalScore, claimFormula, hd, hb]

theorem scoreOK_applyTrigger (r : PRRow) : scoreOK (applyTrigger r) := by
  intro dp bp hd hb
  have hd' : r.deduction_points = some dp := hd
  have hb' : r.bonus_points = some bp := hb
  have hfields : claimFormula (applyTrigger r) dp bp = claimFormula r dp bp := rfl
  simp only [applyTrigger, hfields]
  exact congrArg some (calcFinalScore_eq_claimFormula hd' hb')

/-- C1.  On every insert or update of a Performance Record the trigger
stores `final_score` equal to the claim's weighted formula: (i) the
trigger output satisfies the formula; (ii) the invariant survives any
upsert (insert or conflict-update) of the table; (iii) the client-side
preview score coincides with the server recomputation of the same
inputs on a fresh row (the default 20/20/20/40 weights it hard-codes);
(iv) on the spec's worked example the computed score is `926/11 =
84.1818…`, which is `84.1818` at the four decimal places the spec
displays. -/
theorem claim1_score_recomputation :
    (∀ (r : PRRow) (dp bp : ℚ), r.deduction_points = some dp →
      r.bonus_points = some bp →
      (applyTrigger r).final_score = some (claimFormula r dp bp)) ∧
    (∀ (store : List PRRow) (d : PRInput),
      (∀ r ∈ store, scoreOK r) → ∀ r ∈ upsertPR store d, scoreOK r) ∧
    (∀ (emp : EmployeeData) (groups : List GroupRow) (gg gp : String),
      calcPreviewScore emp = calcFinalScore (freshRow (mkRecordData groups gg gp emp))) ∧
    (calcFinalScore (freshRow specExample) = 926 / 11 ∧
      (841818 : ℚ) / 10000 ≤ 926 / 11 ∧ (926 : ℚ) / 11 < 841819 / 10000) := by
  refine ⟨?_, ?_, ?_, ?_, ?_, ?_⟩
  · intro r dp bp hd hb
    simp only [applyTrigger]
    exact congrArg some (calcFinalScore_eq_claimFormula hd hb)
  · intro store d hstore r hr
    rcases mem_upsertPR hr with h | ⟨r0, h⟩ | h
    · exact hstore r h
    · exact h ▸ scoreOK_applyTrigger (overwriteRow r0 d)
    · exact h ▸ scoreOK_applyTrigger (freshRow d)
  · intro emp groups gg gp
    simp [calcPreviewScore, calcFinalScore, freshRow, mkRecordData]
  · norm_num [calcFinalScore, freshRow, specExample]
  · norm_num
  · norm_num

/-- Witness for C1: the trigger hypothesis is satisfiable — on the
worked example's fresh row the deduction and bonus columns are `some 5`
and `some 0` and the stored score is the claim formula's value. -/
theorem claim1_witness :
    (applyTrigger (freshRow specExample)).final_score =
      some (claimFormula (freshRow specExample) 5 0) :=
  claim1_score_recomputation.1 (freshRow specExample) 5 0 rfl rfl

/-! ## Claim C6 -/

/-- C6.  `final_score` is unbounded: with `deduction_points = 200` the
score the recomputation stores is `-1219/11 < 0`, with
`bonus_points = 200` it is `3181/11 > 100`; no clamp is applied on
either the insert path (upsert into an empty table) or the
conflict-update path (upsert over an existing row) — the stored rows
carry exactly these values. -/
theorem claim6_unclamped_score :
    calcFinalScore (freshRow exNegInput) = -1219 / 11 ∧
    (-1219 : ℚ) / 11 < 0 ∧
    calcFinalScore (freshRow exHighInput) = 3181 / 11 ∧
    (100 : ℚ) < 3181 / 11 ∧
    upsertPR [] exNegInput = [applyTrigger (freshRow exNegInput)] ∧
    (applyTrigger (freshRow exNegInput)).final_score = some (-1219 / 11) ∧
    upsertPR [applyTrigger (freshRow specExample)] exNegInput =
      [applyTrigger (overwriteRow (applyTrigger (freshRow specExample)) exNegInput)] ∧
    (applyTrigger (overwriteRow (applyTrigger (freshRow specExample)) exNegInput)).final_score =
      some (-1219 / 11) := by
  refine ⟨?_, by norm_num, ?_, by norm_num, ?_, ?_, ?_, ?_⟩
  · norm_num [calcFinalScore, freshRow, exNegInput, specExample]
  · norm_num [calcFinalScore, freshRow, exHighInput, specExample]
  · rfl
  · simp only [applyTrigger]
    norm_num [calcFinalScore, freshRow, exNegInput, specExample]
  · simp only [upsertPR, prKey_applyTrigger, prKey_freshRow]
    rw [if_pos (show (specExample.user_id, specExample.period) =
      (exNegInput.user_id, exNegInput.period) from rfl)]
  · simp only [applyTrigger]
    norm_num [calcFinalScore, overwriteRow, applyTrigger, freshRow, exNegInput, specExample]

/-! ## Fold lemmas for the commit loop -/

theorem inputKey_mem_upsertPR (s : List PRRow) (d : PRInput) :
    inputKey d ∈ (upsertPR s d).map prKey := by
  rw [upsertPR_map_prKey]
  by_cases hm : inputKey d ∈ s.map prKey
  · simp only [if_pos hm]
    exact hm
  · simp [hm]

theorem mem_map_prKey_upsertPR {k : String × String} {s : List PRRow}
    (h : k ∈ s.map prKey) (d : PRInput) : k ∈ (upsertPR s d).map prKey := by
  rw [upsertPR_map_prKey]
  by_cases hm : inputKey d ∈ s.map prKey <;> simp [hm, h]

theorem mem_map_prKey_foldUpserts {k : String × String} {s : List PRRow}
    (h : k ∈ s.map prKey) (ds : List PRInput) :
    k ∈ (foldUpserts s ds).map prKey := by
  induction ds generalizing s with
  | nil => exact h
  | cons d tl ih => exact ih (mem_map_prKey_upsertPR h d)

theorem wfStore_foldUpserts {s : List PRRow} (hs : wfStore s) (ds : List PRInput) :
    wfStore (foldUpserts s ds) := by
  induction ds generalizing s with
  | nil => exact hs
  | cons d tl ih => exact ih (wfStore_upsertPR hs d)

theorem rowsWithKey_foldUpserts_other {k : String × String} {ds : List PRInput}
    (h : ∀ d ∈ ds, k ≠ inputKey d) (s : List PRRow) :
    rowsWithKey (foldUpserts s ds) k = rowsWithKey s k := by
  induction ds generalizing s with
  | nil => rfl
  | cons d tl ih =>
      show rowsWithKey (foldUpserts (upsertPR s d) tl) k = rowsWithKey s k
      rw [ih (fun d' hd' => h d' (by simp [hd'])),
        rowsWithKey_upsertPR_other (h d (by simp))]

theorem inputKey_mem_fold_of_mem {d : PRInput} {ds : List PRInput}
    (hd : d ∈ ds) (s : List PRRow) :
    inputKey d ∈ (foldUpserts s ds).map prKey := by
  induction ds generalizing s with
  | nil => simp at hd
  | cons d0 tl ih =>
      rcases List.mem_cons.mp hd with h | h
      · subst h
        exact mem_map_prKey_foldUpserts (inputKey_mem_upsertPR s d) tl
      · exact ih h (upsertPR s d0)

theorem rowsWithKey_upsertPR_self_absorb {s : List PRRow} (hwf : wfStore s)
    (d : PRInput) :
    ∀ r ∈ rowsWithKey (upsertPR s d) (inputKey d), absorbs d r := by
  induction s with
  | nil =>
      intro r hr
      simp only [upsertPR, rowsWithKey, List.filter_cons, List.filter_nil,
        prKey_applyTrigger, prKey_freshRow] at hr
      have : r = applyTrigger (freshRow d) := by
        rcases (by simpa [inputKey] using hr : r = applyTrigger (freshRow d)) with h
        exact h
      rw [this]
      exact overwrite_written_fresh d
  | cons r0 rest ih =>
      intro r hr
      simp only [wfStore, List.map_cons, List.nodup_cons] at hwf
      by_cases hk : prKey r0 = (d.user_id, d.period)
      · have hrest : rowsWithKey rest (inputKey d) = [] := by
          rw [rowsWithKey_eq_nil_iff]
          intro hc
          exact hwf.1 (by simpa [inputKey, ← hk] using hc)
        have hc : prKey r0 = inputKey d := hk
        have hrw : rowsWithKey (upsertPR (r0 :: rest) d) (inputKey d) =
            [applyTrigger (overwriteRow r0 d)] := by
          simp only [upsertPR, if_pos hk, rowsWithKey, List.filter_cons]
          have hdec : (decide (prKey (applyTrigger (overwriteRow r0 d)) = inputKey d)) = true := by
            simp [prKey_applyTrigger, prKey_overwriteRow, hc]
          rw [hdec]
          simp only [if_true]
          simp only [rowsWithKey] at hrest
          rw [hrest]
        rw [hrw] at hr
        simp only [List.mem_singleton] at hr
        subst hr
        exact overwrite_written_overwrite r0 d
      · simp only [upsertPR, if_neg hk, rowsWithKey, List.filter_cons] at hr
        have hne : ¬ prKey r0 = inputKey d := by simpa [inputKey] using hk
        simp only [hne, decide_False, if_false] at hr
        exact ih hwf.2 r (by simpa [rowsWithKey] using hr)

theorem foldUpserts_twice {ds : List PRInput} {s : List PRRow}
    (hwf : wfStore s) (hnd : (ds.map inputKey).Nodup) :
    foldUpserts (foldUpserts s ds) ds = foldUpserts s ds := by
  induction ds generalizing s with
  | nil => rfl
  | cons d tl ih =>
      simp only [List.map_cons, List.nodup_cons] at hnd
      have hwf1 : wfStore (upsertPR s d) := wfStore_upsertPR hwf d
      show foldUpserts (upsertPR (foldUpserts (upsertPR s d) tl) d) tl =
        foldUpserts (upsertPR s d) tl
      have hstable : upsertPR (foldUpserts (upsertPR s d) tl) d =
          foldUpserts (upsertPR s d) tl := by
        apply upsertPR_stable
        · exact mem_map_prKey_foldUpserts (inputKey_mem_upsertPR s d) tl
        · intro r hrmem hrk
          have hrows : rowsWithKey (foldUpserts (upsertPR s d) tl) (inputKey d) =
              rowsWithKey (upsertPR s d) (inputKey d) := by
            apply rowsWithKey_foldUpserts_other
            intro d' hd' hc
            apply hnd.1
            rw [hc]
            exact List.mem_map_of_mem inputKey hd'
          have hrin : r ∈ rowsWithKey (upsertPR s d) (inputKey d) := by
            rw [← hrows]
            simp [rowsWithKey, List.mem_filter, hrmem, hrk]
          exact rowsWithKey_upsertPR_self_absorb hwf d r hrin
      rw [hstable]
      exact ih hwf1 hnd.2

theorem fold_fresh_pin {ds : List PRInput} {s : List PRRow} {d : PRInput}
    (hwf : wfStore s) (hnd : (ds.map inputKey).Nodup) (hd : d ∈ ds)
    (hfresh : rowsWithKey s (inputKey d) = []) :
    rowsWithKey (foldUpserts s ds) (inputKey d) = [applyTrigger (freshRow d)] := by
  induction ds generalizing s with
  | nil => simp at hd
  | cons d0 tl ih =>
      simp only [List.map_cons, List.nodup_cons] at hnd
      rcases List.mem_cons.mp hd with h | h
      · subst h
        show rowsWithKey (foldUpserts (upsertPR s d) tl) (inputKey d) = _
        rw [rowsWithKey_foldUpserts_other
          (by intro d' hd' hc
              apply hnd.1
              rw [hc]
              exact List.mem_map_of_mem inputKey hd')]
        exact rowsWithKey_upsertPR_self_fresh
          ((rowsWithKey_eq_nil_iff s (inputKey d)).mp hfresh)
      · have hkne : inputKey d ≠ inputKey d0 := by
          intro hc
          apply hnd.1
          rw [← hc]
          exact List.mem_map_of_mem inputKey h
        have hfresh' : rowsWithKey (upsertPR s d0) (inputKey d) = [] := by
          rw [rowsWithKey_upsertPR_other hkne]
          exact hfresh
        exact ih (wfStore_upsertPR hwf d0) hnd.2 h hfresh'

theorem fold_len_one {ds : List PRInput} {s : List PRRow} {d : PRInput}
    (hwf : wfStore s) (hd : d ∈ ds) :
    (rowsWithKey (foldUpserts s ds) (inputKey d)).length = 1 :=
  length_rowsWithKey_of_wf (wfStore_foldUpserts hwf ds) (inputKey_mem_fold_of_mem hd s)

/-! ## Claim C2 -/

/-- C2.  Committing the same batch-generation selection twice for the
same period leaves the table exactly as one commit does (the second
commit's upserts overwrite in place on the unique `(user_id, period)`
key): the table state is identical, each selected employee ends with
exactly one Performance Record for the period, and when no record
existed beforehand that single record carries exactly the committed
values (payload columns plus default weights and the recomputed
score). -/
theorem claim2_commit_idempotent (groups : List GroupRow) (gg gp : String)
    (store : List PRRow) (lst : List EmployeeData)
    (hwf : wfStore store)
    (hnd : ((selectedOf lst).map (fun e => e.user_id)).Nodup) :
    commitStore groups gg gp (commitStore groups gg gp store lst) lst =
      commitStore groups gg gp store lst ∧
    (∀ e ∈ selectedOf lst,
      (rowsWithKey (commitStore groups gg gp (commitStore groups gg gp store lst) lst)
        (e.user_id, gp)).length = 1) ∧
    (∀ e ∈ selectedOf lst, rowsWithKey store (e.user_id, gp) = [] →
      rowsWithKey (commitStore groups gg gp (commitStore groups gg gp store lst) lst)
        (e.user_id, gp) =
        [applyTrigger (freshRow (mkRecordData groups gg gp e))]) := by
  have hkeys : (((selectedOf lst).map (mkRecordData groups gg gp)).map inputKey).Nodup := by
    have hcomp : ((selectedOf lst).map (mkRecordData groups gg gp)).map inputKey =
        (selectedOf lst).map (fun e => (e.user_id, gp)) := by
      simp [List.map_map, inputKey, mkRecordData, Function.comp]
    rw [hcomp]
    have : (selectedOf lst).map (fun e => (e.user_id, gp)) =
        ((selectedOf lst).map (fun e => e.user_id)).map (fun u => (u, gp)) := by
      simp [List.map_map, Function.comp]
    rw [this]
    exact hnd.map (fun a b hab => congrArg Prod.fst hab)
  have htwice : commitStore groups gg gp (commitStore groups gg gp store lst) lst =
      commitStore groups gg gp store lst :=
    foldUpserts_twice hwf hkeys
  refine ⟨htwice, ?_, ?_⟩
  · intro e he
    rw [htwice]
    have hd : mkRecordData groups gg gp e ∈ (selectedOf lst).map (mkRecordData groups gg gp) :=
      List.mem_map_of_mem _ he
    have := fold_len_one hwf hd
    simpa [inputKey, mkRecordData] using this
  · intro e he hfresh
    rw [htwice]
    have hd : mkRecordData groups gg gp e ∈ (selectedOf lst).map (mkRecordData groups gg gp) :=
      List.mem_map_of_mem _ he
    have hfresh' : rowsWithKey store (inputKey (mkRecordData groups gg gp e)) = [] := by
      simpa [inputKey, mkRecordData] using hfresh
    have := fold_fresh_pin hwf hkeys hd hfresh'
    simpa [inputKey, mkRecordData] using this

/-- Witness for C2: a two-employee roster committed twice into an empty
table — the hypotheses (unique key constraint, distinct roster user ids,
no pre-existing records) hold concretely and the conclusions follow. -/
theorem claim2_witness :
    let emp1 : EmployeeData :=
      { user_id := "u1", name := "甲", selected := true, batchSelected := true,
        actual_attendance := 22, required_attendance := 22, annotation_score := 20,
        onsite_performance := 5, total_inspected := 0, total_errors := 0,
        deduction_points := 0, deduction_reason := "", bonus_points := 0,
        bonus_reason := "" }
    let emp2 : EmployeeData :=
      { user_id := "u2", name := "乙", selected := true, batchSelected := true,
        actual_attendance := 20, required_attendance := 22, annotation_score := 18,
        onsite_performance := 4, total_inspected := 50, total_errors := 1,
        deduction_points := 0, deduction_reason := "", bonus_points := 0,
        bonus_reason := "" }
    let gs : List GroupRow := [{ id := "g1", branch_id := "b1", name := "一组" }]
    commitStore gs "g1" "2024-01" (commitStore gs "g1" "2024-01" [] [emp1, emp2]) [emp1, emp2] =
      commitStore gs "g1" "2024-01" [] [emp1, emp2] ∧
    (∀ e ∈ selectedOf [emp1, emp2],
      (rowsWithKey (commitStore gs "g1" "2024-01"
        (commitStore gs "g1" "2024-01" [] [emp1, emp2]) [emp1, emp2])
        (e.user_id, "2024-01")).length = 1) := by
  intro emp1 emp2 gs
  have h := claim2_commit_idempotent gs "g1" "2024-01" [] [emp1, emp2]
    (by simp [wfStore]) (by simp [selectedOf, emp1, emp2])
  exact ⟨h.1, h.2.1⟩

/-! ## Claim C9 -/

theorem getLast?_cons_eq {α : Type} (a : α) (l : List α) :
    (a :: l).getLast? = match l.getLast? with | none => some a | some x => some x := by
  cases l with
  | nil => rfl
  | cons b t =>
      rw [List.getLast?_cons_cons]
      cases h : (b :: t).getLast? with
      | none =>
          exact absurd (List.getLast?_eq_none_iff.mp h) (by simp)
      | some x => rfl

theorem runGenerate_aux (groups : List GroupRow) (gg gp : String)
    (errOf : String → Option String) :
    ∀ (sel : List EmployeeData) (res : GenResult),
      sel.foldl (commitStep groups gg gp errOf) res =
        { store := foldUpserts res.store
            ((sel.filter (fun e => (errOf e.user_id).isNone)).map (mkRecordData groups gg gp))
          successCount :=
            res.successCount + (sel.filter (fun e => (errOf e.user_id).isNone)).length
          failCount :=
            res.failCount + (sel.filter (fun e => (errOf e.user_id).isSome)).length
          failedNames := res.failedNames ++
            (sel.filter (fun e => (errOf e.user_id).isSome)).map (fun e => e.name)
          lastError :=
            match (sel.filterMap (fun e => errOf e.user_id)).getLast? with
            | none => res.lastError
            | some m => some m } := by
  intro sel
  induction sel with
  | nil => intro res; simp [foldUpserts]
  | cons e tl ih =>
      intro res
      cases h : errOf e.user_id with
      | none =>
          simp only [List.foldl_cons, commitStep, h]
          rw [ih]
          simp [List.filter_cons, List.filterMap_cons, h, foldUpserts]
          omega
      | some msg =>
          simp only [List.foldl_cons, commitStep, h]
          rw [ih]
          simp only [List.filter_cons, List.filterMap_cons, h, Option.isNone_some,
            Option.isSome_some, if_true, if_false, Bool.false_eq_true, cond_false,
            List.map_cons, List.length_cons]
          rw [getLast?_cons_eq msg (tl.filterMap (fun e => errOf e.user_id))]
          cases htl : (tl.filterMap (fun e => errOf e.user_id)).getLast? with
          | none =>
              simp [GenResult.mk.injEq, List.append_assoc]
              omega
          | some x =>
              simp [GenResult.mk.injEq, List.append_assoc]
              omega

/-- C9.  The batch-generation commit issues one upsert per selected
employee and the upserts are independent: the final table is the fold
of exactly the successful employees' upserts in roster order (a failure
never blocks later employees), and the outcome tally is the aggregated
summary — success count, failure count, failed employee names in
order, and the last failure's message as the sample error.  Partial
success is just a result value, not an aborted transaction. -/
theorem claim9_commit_independent_partial (groups : List GroupRow) (gg gp : String)
    (errOf : String → Option String) (store : List PRRow) (lst : List EmployeeData) :
    (runGenerate groups gg gp errOf store lst).successCount =
      ((selectedOf lst).filter (fun e => (errOf e.user_id).isNone)).length ∧
    (runGenerate groups gg gp errOf store lst).failCount =
      ((selectedOf lst).filter (fun e => (errOf e.user_id).isSome)).length ∧
    (runGenerate groups gg gp errOf store lst).failedNames =
      ((selectedOf lst).filter (fun e => (errOf e.user_id).isSome)).map (fun e => e.name) ∧
    (runGenerate groups gg gp errOf store lst).lastError =
      ((selectedOf lst).filterMap (fun e => errOf e.user_id)).getLast? ∧
    (runGenerate groups gg gp errOf store lst).store =
      foldUpserts store
        (((selectedOf lst).filter (fun e => (errOf e.user_id).isNone)).map
          (mkRecordData groups gg gp)) := by
  unfold runGenerate
  rw [runGenerate_aux]
  refine ⟨by simp, by simp, by simp, ?_, by simp⟩
  cases h : ((selectedOf lst).filterMap (fun e => errOf e.user_id)).getLast? <;> simp

theorem qcListing_employee_case (p : Principal) (users : List AppUser)
    (rows : List QIRow)
    (h1 : ¬(p.role = Role.manager ∧ optTruthy p.branch_id))
    (h2 : p.role = Role.employee ∧ optTruthy p.group_id) :
    qcListing p users rows =
      if (groupMemberIds p users).isEmpty then rows
      else rows.filter (fun r => (groupMemberIds p users).contains r.user_id) := by
  unfold qcListing groupMemberIds
  rw [if_neg h1, if_pos h2]

/-- C3 counterexample.  For the employee principal with a null
`group_id`, the quality-inspection listing returns a row of a user in a
different group (the filter falls through), so the claim's "only rows
belonging to users in the employee's own group" fails as stated. -/
theorem claim3_counterexample :
    ¬ qcScoped { role := Role.employee, branch_id := some "b1", group_id := none }
      [cexUser] [cexRow] := by
  intro h
  have := h cexRow (by simp [qcListing, cexRow, cexUser, optTruthy])
  rcases this with ⟨u, hu, _, hg⟩
  simp only [List.mem_singleton] at hu
  subst hu
  simp [cexUser] at hg

/-- C3 (amended).  Role scoping holds with the guards the code actually
applies: a manager's Performance-Record listing only ever returns rows
whose `branch_id` equals the manager's own (strict equality, in
particular for every manager principal); and an employee principal
whose `group_id` is a non-empty string and whose group has at least one
member in the users table receives only quality-inspection rows of
users in that group. -/
theorem claim3_role_scoping :
    (∀ (p : Principal) (rows : List PRRow), p.role = Role.manager →
      ∀ r ∈ perfListing p rows, r.branch_id = p.branch_id) ∧
    (∀ (p : Principal) (users : List AppUser) (rows : List QIRow) (g : String),
      p.role = Role.employee → p.group_id = some g → g ≠ "" →
      (∃ u ∈ users, u.group_id = some g) →
      ∀ r ∈ qcListing p users rows,
        ∃ u ∈ users, u.id = r.user_id ∧ u.group_id = some g) := by
  constructor
  · intro p rows hrole r hr
    unfold perfListing at hr
    rw [if_pos hrole] at hr
    have := (List.mem_filter.mp hr).2
    simpa using this
  · intro p users rows g hrole hpg hgne hex r hr
    have h1 : ¬(p.role = Role.manager ∧ optTruthy p.branch_id) := by
      rintro ⟨hc, -⟩
      rw [hrole] at hc
      cases hc
    have h2 : p.role = Role.employee ∧ optTruthy p.group_id := by
      refine ⟨hrole, ?_⟩
      rw [hpg]
      simpa [optTruthy] using hgne
    rw [qcListing_employee_case p users rows h1 h2] at hr
    rcases hex with ⟨u0, hu0, hu0g⟩
    have hmem : u0.id ∈ groupMemberIds p users := by
      apply List.mem_map_of_mem
      rw [List.mem_filter]
      exact ⟨hu0, by simp [hu0g, hpg]⟩
    have hemp : (groupMemberIds p users).isEmpty = false := by
      rcases List.isEmpty_iff.mp.mt (List.ne_nil_of_mem hmem) with h
      simpa using h
    rw [hemp] at hr
    simp only [Bool.false_eq_true, if_false] at hr
    rcases List.mem_filter.mp hr with ⟨-, hcont⟩
    have : r.user_id ∈ groupMemberIds p users := List.elem_iff.mp hcont
    rcases List.mem_map.mp this with ⟨u, humem, huid⟩
    rcases List.mem_filter.mp humem with ⟨huu, hug⟩
    refine ⟨u, huu, huid, ?_⟩
    rw [hpg] at hug
    simpa using hug

/-- Witness for C3 (amended): a manager principal receives only
own-branch rows, and a well-formed employee principal (group `"g1"`
with one member) receives only rows of that member. -/
theorem claim3_witness :
    (∀ r ∈ perfListing { role := Role.manager, branch_id := some "b1", group_id := none }
      [applyTrigger (freshRow specExample)],
      r.branch_id = some "b1") ∧
    (∀ r ∈ qcListing { role := Role.employee, branch_id := some "b2", group_id := some "g2" }
      [cexUser] [cexRow],
      ∃ u ∈ [cexUser], u.id = r.user_id ∧ u.group_id = some "g2") := by
  constructor
  · intro r hr
    exact claim3_role_scoping.1
      { role := Role.manager, branch_id := some "b1", group_id := none } _ rfl r hr
  · intro r hr
    exact claim3_role_scoping.2
      { role := Role.employee, branch_id := some "b2", group_id := some "g2" }
      [cexUser] [cexRow] "g2" rfl rfl (by decide)
      ⟨cexUser, by simp, rfl⟩ r hr

/-- C10.  A principal with role `employee` but a falsy (null or empty)
`group_id`, or role `manager` but a falsy `branch_id`, matches neither
scope branch of the quality-inspection listing: the query falls through
unfiltered and returns every inspection row, exactly what an admin
principal receives. -/
theorem claim10_falsy_scope_unrestricted (p : Principal) (users : List AppUser)
    (rows : List QIRow)
    (h : (p.role = Role.employee ∧ optTruthy p.group_id = false) ∨
         (p.role = Role.manager ∧ optTruthy p.branch_id = false)) :
    qcListing p users rows = rows ∧
    qcListing { role := Role.admin, branch_id := none, group_id := none } users rows = rows := by
  constructor
  · rcases h with ⟨hr, hg⟩ | ⟨hr, hb⟩
    · simp [qcListing, hr, hg]
    · simp [qcListing, hr, hb]
  · simp [qcListing]

/-- Witness for C10: an employee principal with `group_id = null` and a
manager principal with `branch_id = ''` both receive the full table. -/
theorem claim10_witness :
    qcListing { role := Role.employee, branch_id := some "b1", group_id := none }
      [cexUser] [cexRow] = [cexRow] ∧
    qcListing { role := Role.manager, branch_id := some "", group_id := none }
      [cexUser] [cexRow] = [cexRow] := by
  constructor
  · exact (claim10_falsy_scope_unrestricted
      { role := Role.employee, branch_id := some "b1", group_id := none }
      [cexUser] [cexRow] (Or.inl ⟨rfl, rfl⟩)).1
  · exact (claim10_falsy_scope_unrestricted
      { role := Role.manager, branch_id := some "", group_id := none }
      [cexUser] [cexRow] (Or.inr ⟨rfl, rfl⟩)).1

theorem lookup_qsAdd (m : List (String × (ℤ × ℤ))) (u0 : String) (i e : ℤ)
    (k : String) :
    List.lookup k (qsAdd m u0 i e) =
      if k = u0 then
        match List.lookup k m with
        | some (pi, pe) => some (pi + i, pe + e)
        | none => some (i, e)
      else List.lookup k m := by
  induction m with
  | nil =>
      by_cases h : k = u0
      · subst h; simp [qsAdd, List.lookup]
      · have hb : (k == u0) = false := beq_eq_false_iff_ne.mpr h
        simp [qsAdd, List.lookup, h, hb]
  | cons p rest ih =>
      obtain ⟨u, pi, pe⟩ := p
      by_cases hu : u = u0
      · subst hu
        by_cases hk : k = u
        · subst hk; simp [qsAdd, List.lookup]
        · have hb : (k == u) = false := beq_eq_false_iff_ne.mpr hk
          simp [qsAdd, List.lookup, hk, hb]
      · by_cases hk : k = u
        · subst hk
          have hku0 : ¬ k = u0 := hu
          simp [qsAdd, List.lookup, hu, hku0]
        · have hb : (k == u) = false := beq_eq_false_iff_ne.mpr hk
          simp [qsAdd, List.lookup, hu, hk, hb, ih]

theorem qcGet_qsAdd (m : List (String × (ℤ × ℤ))) (u0 : String) (i e : ℤ)
    (k : String) :
    qcGet (qsAdd m u0 i e) k =
      ((qcGet m k).1 + (if u0 = k then i else 0),
        (qcGet m k).2 + (if u0 = k then e else 0)) := by
  unfold qcGet
  rw [lookup_qsAdd]
  by_cases h : k = u0
  · subst h
    cases hm : List.lookup k m with
    | none => simp
    | some v =>
        obtain ⟨pi, pe⟩ := v
        simp
  · have h' : ¬ u0 = k := fun hc => h hc.symm
    simp [h, h']

theorem qcGet_foldQS (uid : String) :
    ∀ (rows : List QIRow) (m : List (String × (ℤ × ℤ))),
      qcGet (rows.foldl (fun m r => qsAdd m r.user_id r.inspected_count r.error_count) m) uid =
        ((qcGet m uid).1 + sumI rows uid, (qcGet m uid).2 + sumE rows uid) := by
  intro rows
  induction rows with
  | nil => intro m; simp [sumI, sumE]
  | cons r tl ih =>
      intro m
      simp only [List.foldl_cons]
      rw [ih, qcGet_qsAdd]
      by_cases h : r.user_id = uid
      · simp [sumI, sumE, List.filter_cons, h, add_assoc]
      · have h' : (r.user_id == uid) = false := by simp [h]
        simp [sumI, sumE, List.filter_cons, h, h']

theorem buildSummary_get (rows : List QIRow) (uid : String) :
    qcGet (buildSummary rows) uid = (sumI rows uid, sumE rows uid) := by
  unfold buildSummary
  rw [qcGet_foldQS]
  simp [qcGet]

/-- C8.  The Period Aggregator: a `YYYY-MM` period parses to its year
and month; the queried range runs inclusively from day 1 to the last
calendar day of the month with 28/29/30/31-day months and the Gregorian
leap rule (Feb 29 included for 2024-02, stopping at Feb 28 for
2023-02); a row is fetched exactly when it lies in the range and
belongs to a requested user; the per-employee result is the sum of
inspected and error counts over the fetched rows; and an employee with
no aggregates in range yields `(0, 0)`. -/
theorem claim8_period_aggregation :
    (parsePeriod "2024-02" = some (2024, 2) ∧ parsePeriod "2023-02" = some (2023, 2)) ∧
    (daysInMonth 2024 2 = 29 ∧ daysInMonth 2023 2 = 28 ∧ daysInMonth 2000 2 = 29 ∧
      daysInMonth 1900 2 = 28 ∧ daysInMonth 2024 1 = 31 ∧ daysInMonth 2024 4 = 30 ∧
      daysInMonth 2024 12 = 31) ∧
    (∀ r : QIRow, r.inspection_date = ⟨2024, 2, 29⟩ → qcInRange 2024 2 r = true) ∧
    (∀ r : QIRow, r.inspection_date = ⟨2023, 2, 28⟩ → qcInRange 2023 2 r = true) ∧
    (∀ r : QIRow, r.inspection_date = ⟨2023, 2, 29⟩ → qcInRange 2023 2 r = false) ∧
    (∀ (userIds : List String) (y mo : ℕ) (table : List QIRow) (r : QIRow),
      r ∈ fetchQCRows userIds y mo table ↔
        r ∈ table ∧ qcInRange y mo r = true ∧ userIds.contains r.user_id = true) ∧
    (∀ (userIds : List String) (y mo : ℕ) (table : List QIRow) (uid : String),
      periodTotals userIds y mo table uid =
        (sumI (fetchQCRows userIds y mo table) uid,
          sumE (fetchQCRows userIds y mo table) uid)) ∧
    (∀ (userIds : List String) (y mo : ℕ) (table : List QIRow) (uid : String),
      (∀ r ∈ table, ¬(r.user_id = uid ∧ qcInRange y mo r = true ∧
        userIds.contains r.user_id = true)) →
      periodTotals userIds y mo table uid = (0, 0)) := by
  refine ⟨by decide, by decide, ?_, ?_, ?_, ?_, ?_, ?_⟩
  · intro r hr; simp [qcInRange, hr, ymdLe, daysInMonth, isLeapYear]
  · intro r hr; simp [qcInRange, hr, ymdLe, daysInMonth, isLeapYear]
  · intro r hr; simp [qcInRange, hr, ymdLe, daysInMonth, isLeapYear]
  · intro userIds y mo table r
    simp [fetchQCRows, List.mem_filter, and_assoc]
  · intro userIds y mo table uid
    unfold periodTotals
    exact buildSummary_get _ uid
  · intro userIds y mo table uid hnone
    unfold periodTotals
    rw [buildSummary_get]
    have hfil : (fetchQCRows userIds y mo table).filter (fun r => r.user_id == uid) = [] := by
      rw [List.filter_eq_nil_iff]
      intro r hr
      rcases List.mem_filter.mp hr with ⟨hmem, hcond⟩
      simp only [Bool.and_eq_true] at hcond
      intro hbeq
      exact hnone r hmem ⟨by simpa using hbeq, hcond.1, hcond.2⟩
    simp [sumI, sumE, hfil]

/-- Witness for C8: concrete rows dated Feb 29 2024 / Feb 28–29 2023
and an empty table instantiate the range and default conclusions. -/
theorem claim8_witness :
    qcInRange 2024 2 { cexRow with inspection_date := ⟨2024, 2, 29⟩ } = true ∧
    qcInRange 2023 2 { cexRow with inspection_date := ⟨2023, 2, 28⟩ } = true ∧
    qcInRange 2023 2 { cexRow with inspection_date := ⟨2023, 2, 29⟩ } = false ∧
    periodTotals ["u1"] 2024 2 [] "u1" = (0, 0) :=
  ⟨claim8_period_aggregation.2.2.1 _ rfl,
    claim8_period_aggregation.2.2.2.1 _ rfl,
    claim8_period_aggregation.2.2.2.2.1 _ rfl,
    claim8_period_aggregation.2.2.2.2.2.2.2 ["u1"] 2024 2 [] "u1" (by simp)⟩

theorem lookup_bmAdd (m : List (String × BatchEntry)) (k0 : String) (e0 : BatchEntry)
    (k : String) :
    List.lookup k (bmAdd m k0 e0) =
      if k = k0 then
        match List.lookup k m with
        | some ex => some { ex with
            inspected_count := ex.inspected_count + e0.inspected_count
            error_count := ex.error_count + e0.error_count }
        | none => some e0
      else List.lookup k m := by
  induction m with
  | nil =>
      by_cases h : k = k0
      · subst h; simp [bmAdd, List.lookup]
      · have hb : (k == k0) = false := beq_eq_false_iff_ne.mpr h
        simp [bmAdd, List.lookup, h, hb]
  | cons p rest ih =>
      obtain ⟨u, eu⟩ := p
      by_cases hu : u = k0
      · subst hu
        by_cases hk : k = u
        · subst hk; simp [bmAdd, List.lookup]
        · have hb : (k == u) = false := beq_eq_false_iff_ne.mpr hk
          simp [bmAdd, List.lookup, hk, hb]
      · by_cases hk : k = u
        · subst hk
          have hku0 : ¬ k = k0 := hu
          simp [bmAdd, List.lookup, hu, hku0]
        · have hb : (k == u) = false := beq_eq_false_iff_ne.mpr hk
          simp [bmAdd, List.lookup, hu, hk, hb, ih]

theorem keyIns_bmAdd (m : List (String × BatchEntry)) (k0 : String) (e0 : BatchEntry)
    (k : String) :
    keyIns (bmAdd m k0 e0) k =
      keyIns m k + (if k = k0 then e0.inspected_count else 0) := by
  unfold keyIns
  rw [lookup_bmAdd]
  by_cases h : k = k0
  · subst h
    cases hm : List.lookup k m with
    | none => simp
    | some ex => simp
  · simp [h]

theorem keyErrs_bmAdd (m : List (String × BatchEntry)) (k0 : String) (e0 : BatchEntry)
    (k : String) :
    keyErrs (bmAdd m k0 e0) k =
      keyErrs m k + (if k = k0 then e0.error_count else 0) := by
  unfold keyErrs
  rw [lookup_bmAdd]
  by_cases h : k = k0
  · subst h
    cases hm : List.lookup k m with
    | none => simp
    | some ex => simp
  · simp [h]

theorem keyIns_foldBM (k : String) :
    ∀ (entries : List (String × BatchEntry)) (m : List (String × BatchEntry)),
      keyIns (entries.foldl (fun m ke => bmAdd m ke.1 ke.2) m) k =
        keyIns m k + keyTotalIns entries k := by
  intro entries
  induction entries with
  | nil => intro m; simp [keyTotalIns]
  | cons e tl ih =>
      intro m
      simp only [List.foldl_cons]
      rw [ih, keyIns_bmAdd]
      by_cases h : e.1 = k
      · have hb : (e.1 == k) = true := beq_iff_eq.mpr h
        have h' : k = e.1 := h.symm
        simp [keyTotalIns, List.filter_cons, hb, h', add_assoc]
      · have hb : (e.1 == k) = false := beq_eq_false_iff_ne.mpr h
        have h' : ¬ k = e.1 := fun hc => h hc.symm
        simp [keyTotalIns, List.filter_cons, hb, h']

theorem keyErrs_foldBM (k : String) :
    ∀ (entries : List (String × BatchEntry)) (m : List (String × BatchEntry)),
      keyErrs (entries.foldl (fun m ke => bmAdd m ke.1 ke.2) m) k =
        keyErrs m k + keyTotalErrs entries k := by
  intro entries
  induction entries with
  | nil => intro m; simp [keyTotalErrs]
  | cons e tl ih =>
      intro m
      simp only [List.foldl_cons]
      rw [ih, keyErrs_bmAdd]
      by_cases h : e.1 = k
      · have hb : (e.1 == k) = true := beq_iff_eq.mpr h
        have h' : k = e.1 := h.symm
        simp [keyTotalErrs, List.filter_cons, hb, h', add_assoc]
      · have hb : (e.1 == k) = false := beq_eq_false_iff_ne.mpr h
        have h' : ¬ k = e.1 := fun hc => h hc.symm
        simp [keyTotalErrs, List.filter_cons, hb, h']

theorem keyIns_buildMap (entries : List (String × BatchEntry)) (k : String) :
    keyIns (buildMap entries) k = keyTotalIns entries k := by
  unfold buildMap
  rw [keyIns_foldBM]
  simp [keyIns]

theorem keyErrs_buildMap (entries : List (String × BatchEntry)) (k : String) :
    keyErrs (buildMap entries) k = keyTotalErrs entries k := by
  unfold buildMap
  rw [keyErrs_foldBM]
  simp [keyErrs]

theorem bmAdd_keys (m : List (String × BatchEntry)) (k0 : String) (e0 : BatchEntry) :
    (bmAdd m k0 e0).map Prod.fst =
      if k0 ∈ m.map Prod.fst then m.map Prod.fst else m.map Prod.fst ++ [k0] := by
  induction m with
  | nil => simp [bmAdd]
  | cons p rest ih =>
      obtain ⟨u, eu⟩ := p
      by_cases hu : u = k0
      · subst hu
        simp [bmAdd]
      · simp only [bmAdd, if_neg hu, List.map_cons, ih]
        have hne : ¬ k0 = u := fun hc => hu hc.symm
        by_cases hm : k0 ∈ rest.map Prod.fst
        · rw [if_pos hm, if_pos (by simp [List.mem_cons, hm])]
        · rw [if_neg hm, if_neg (by simp [List.mem_cons, hne, hm])]
          simp

theorem foldBM_keys_nodup :
    ∀ (entries : List (String × BatchEntry)) (m : List (String × BatchEntry)),
      (m.map Prod.fst).Nodup →
      ((entries.foldl (fun m ke => bmAdd m ke.1 ke.2) m).map Prod.fst).Nodup := by
  intro entries
  induction entries with
  | nil => intro m hm; exact hm
  | cons e tl ih =>
      intro m hm
      simp only [List.foldl_cons]
      apply ih
      rw [bmAdd_keys]
      by_cases hmem : e.1 ∈ m.map Prod.fst
      · simpa [hmem] using hm
      · simp only [hmem, if_false]
        rw [List.nodup_append]
        refine ⟨hm, List.nodup_singleton _, ?_⟩
        intro x hx hx1
        simp only [List.mem_singleton] at hx1
        exact hmem (hx1 ▸ hx)

theorem mem_keys_foldBM :
    ∀ (entries : List (String × BatchEntry)) (m : List (String × BatchEntry)) (k : String),
      k ∈ ((entries.foldl (fun m ke => bmAdd m ke.1 ke.2) m).map Prod.fst) ↔
        (k ∈ m.map Prod.fst ∨ ∃ e ∈ entries, e.1 = k) := by
  intro entries
  induction entries with
  | nil => intro m k; simp
  | cons e tl ih =>
      intro m k
      simp only [List.foldl_cons]
      rw [ih]
      have hstep : k ∈ (bmAdd m e.1 e.2).map Prod.fst ↔
          (k ∈ m.map Prod.fst ∨ k = e.1) := by
        rw [bmAdd_keys]
        by_cases hmem : e.1 ∈ m.map Prod.fst
        · simp only [hmem, if_true]
          constructor
          · exact Or.inl
          · rintro (h | h)
            · exact h
            · exact h ▸ hmem
        · simp [hmem]
      rw [hstep]
      constructor
      · rintro ((h | h) | ⟨e', he', hk⟩)
        · exact Or.inl h
        · exact Or.inr ⟨e, by simp, h.symm⟩
        · exact Or.inr ⟨e', by simp [he'], hk⟩
      · rintro (h | ⟨e', he', hk⟩)
        · exact Or.inl (Or.inl h)
        · rcases List.mem_cons.mp he' with he'' | he''
          · exact Or.inl (Or.inr (he'' ▸ hk).symm)
          · exact Or.inr ⟨e', he'', hk⟩

theorem count_keys_buildMap (entries : List (String × BatchEntry)) (k : String) :
    ((buildMap entries).map Prod.fst).count k =
      if ∃ e ∈ entries, e.1 = k then 1 else 0 := by
  have hnd : ((buildMap entries).map Prod.fst).Nodup :=
    foldBM_keys_nodup entries [] (by simp)
  have hmem : k ∈ (buildMap entries).map Prod.fst ↔ ∃ e ∈ entries, e.1 = k := by
    rw [buildMap, mem_keys_foldBM]
    simp
  by_cases h : ∃ e ∈ entries, e.1 = k
  · rw [if_pos h]
    exact List.count_eq_one_of_mem hnd (hmem.mpr h)
  · rw [if_neg h]
    exact List.count_eq_zero.mpr (fun hc => h (hmem.mp hc))

theorem procRows_aux (users : List AppUser) (branch : String) :
    ∀ (rows : List ExcelRow) (st : ProcState),
      rows.foldl (procStep users branch) st =
        { errors := st.errors ++ rows.filterMap (rowError users branch)
          failed := st.failed + (rows.filterMap (rowError users branch)).length
          batchMap := (rows.filterMap (validEntry users branch)).foldl
            (fun m ke => bmAdd m ke.1 ke.2) st.batchMap } := by
  intro rows
  induction rows with
  | nil => intro st; simp
  | cons row tl ih =>
      intro st
      simp only [List.foldl_cons]
      rw [ih]
      cases hn : nameToUser users branch row.rname with
      | none =>
          simp [procStep, rowError, validEntry, hn, List.filterMap_cons, Nat.add_assoc,
            Nat.add_comm 1]
      | some u =>
          cases hd : parseDate row.rdate with
          | none =>
              simp [procStep, rowError, validEntry, hn, hd, List.filterMap_cons,
                Nat.add_assoc, Nat.add_comm 1]
          | some date =>
              simp [procStep, rowError, validEntry, hn, hd, List.filterMap_cons]

theorem procRows_eq (users : List AppUser) (branch : String) (rows : List ExcelRow) :
    procRows users branch rows =
      { errors := rows.filterMap (rowError users branch)
        failed := (rows.filterMap (rowError users branch)).length
        batchMap := buildMap (rows.filterMap (validEntry users branch)) } := by
  unfold procRows buildMap
  rw [procRows_aux]
  simp

/-- C7.  Within a single import, the `batchMap` accumulation: the
aggregate stored under a key is exactly the sum of the inspected and
error counts of the input entries carrying that key; each key occupies
exactly one map entry (when present at all); the totals are invariant
under permutation of the input rows and additive under regrouping
(concatenation); and the `processImport` row loop feeds the map exactly
the validated rows. -/
theorem claim7_within_batch_merge :
    (∀ (entries : List (String × BatchEntry)) (k : String),
      keyIns (buildMap entries) k = keyTotalIns entries k ∧
      keyErrs (buildMap entries) k = keyTotalErrs entries k) ∧
    (∀ (entries : List (String × BatchEntry)) (k : String),
      ((buildMap entries).map Prod.fst).count k =
        if ∃ e ∈ entries, e.1 = k then 1 else 0) ∧
    (∀ (entries entries' : List (String × BatchEntry)) (k : String),
      entries.Perm entries' →
      keyIns (buildMap entries) k = keyIns (buildMap entries') k ∧
      keyErrs (buildMap entries) k = keyErrs (buildMap entries') k) ∧
    (∀ (xs ys : List (String × BatchEntry)) (k : String),
      keyIns (buildMap (xs ++ ys)) k = keyIns (buildMap xs) k + keyIns (buildMap ys) k ∧
      keyErrs (buildMap (xs ++ ys)) k = keyErrs (buildMap xs) k + keyErrs (buildMap ys) k) ∧
    (∀ (users : List AppUser) (branch : String) (rows : List ExcelRow),
      (procRows users branch rows).batchMap =
        buildMap (rows.filterMap (validEntry users branch))) := by
  refine ⟨?_, ?_, ?_, ?_, ?_⟩
  · intro entries k
    exact ⟨keyIns_buildMap entries k, keyErrs_buildMap entries k⟩
  · intro entries k
    exact count_keys_buildMap entries k
  · intro entries entries' k hperm
    rw [keyIns_buildMap, keyIns_buildMap, keyErrs_buildMap, keyErrs_buildMap]
    constructor
    · exact ((hperm.filter _).map _).sum_eq
    · exact ((hperm.filter _).map _).sum_eq
  · intro xs ys k
    rw [keyIns_buildMap, keyIns_buildMap, keyIns_buildMap,
      keyErrs_buildMap, keyErrs_buildMap, keyErrs_buildMap]
    constructor
    · simp [keyTotalIns, List.filter_append]
    · simp [keyTotalErrs, List.filter_append]
  · intro users branch rows
    rw [procRows_eq]

/-- Witness for C7: two rows of the same key merge to the summed counts,
and swapping them leaves the totals unchanged. -/
theorem claim7_witness :
    keyIns (buildMap [("k", be1), ("k", be2)]) "k" =
      keyIns (buildMap [("k", be2), ("k", be1)]) "k" ∧
    keyIns (buildMap [("k", be1), ("k", be2)]) "k" = 35 := by
  constructor
  · exact (claim7_within_batch_merge.2.2.1 _ _ "k" (List.Perm.swap _ _ _)).1
  · rw [(claim7_within_batch_merge.1 _ "k").1]
    simp [keyTotalIns, be1, be2]
    norm_num

/-! ## Claim C4: date parsing and per-row rejection -/

theorem slash_not_iso {l : List Char} (h : slashCore l = true) : isoCore l = false := by
  unfold slashCore at h
  split at h
  · rfl
  · rfl
  · rfl
  · rfl
  · exact absurd h (by simp)

theorem dot_not_iso {l : List Char} (h : dotCore l = true) : isoCore l = false := by
  unfold dotCore at h
  split at h
  · rfl
  · rfl
  · rfl
  · rfl
  · exact absurd h (by simp)

theorem dot_not_slash {l : List Char} (h : dotCore l = true) : slashCore l = false := by
  unfold dotCore at h
  split at h
  · rfl
  · rfl
  · rfl
  · rfl
  · exact absurd h (by simp)

theorem digits_not_iso {l : List Char} (h : l.all Char.isDigit = true) :
    isoCore l = false := by
  cases hiso : isoCore l
  · rfl
  · exfalso
    unfold isoCore at hiso
    split at hiso
    · simp at h
    · exact absurd hiso (by simp)

theorem digits_not_slash {l : List Char} (h : l.all Char.isDigit = true) :
    slashCore l = false := by
  cases hs : slashCore l
  · rfl
  · exfalso
    unfold slashCore at hs
    split at hs
    · simp at h
    · simp at h
    · simp at h
    · simp at h
    · exact absurd hs (by simp)

theorem digits_not_dot {l : List Char} (h : l.all Char.isDigit = true) :
    dotCore l = false := by
  cases hs : dotCore l
  · rfl
  · exfalso
    unfold dotCore at hs
    split at hs
    · simp at h
    · simp at h
    · simp at h
    · simp at h
    · exact absurd hs (by simp)

theorem toNumberCore_digits {l : List Char} (hne : l ≠ [])
    (hall : l.all Char.isDigit = true) :
    toNumberCore l = some ((digitsToNat l : ℚ)) := by
  obtain ⟨c, t, rfl⟩ : ∃ c t, l = c :: t := by
    cases l with
    | nil => exact absurd rfl hne
    | cons c t => exact ⟨c, t, rfl⟩
  have hc : c.isDigit = true := by
    simp only [List.all_cons, Bool.and_eq_true] at hall
    exact hall.1
  have hcm : (c == '-') = false := by
    apply beq_eq_false_iff_ne.mpr
    intro hcc
    rw [hcc] at hc
    exact absurd hc (by decide)
  have hcp : (c == '+') = false := by
    apply beq_eq_false_iff_ne.mpr
    intro hcc
    rw [hcc] at hc
    exact absurd hc (by decide)
  have hnodot : ∀ x ∈ c :: t, (decide (x ≠ '.')) = true := by
    intro x hx
    simp only [decide_eq_true_eq]
    intro hxx
    have := List.all_eq_true.mp hall x hx
    rw [hxx] at this
    exact absurd this (by decide)
  have htake : (c :: t).takeWhile (fun x => decide (x ≠ '.')) = c :: t :=
    List.takeWhile_eq_self_iff.mpr hnodot
  have hdrop : (c :: t).dropWhile (fun x => decide (x ≠ '.')) = [] :=
    List.dropWhile_eq_nil_iff.mpr hnodot
  unfold toNumberCore
  simp only [List.isEmpty_cons, Bool.false_eq_true, if_false, List.headD_cons,
    hcm, hcp, Bool.or_self, htake, hdrop, hall, Bool.and_true, Bool.and_self]
  simp [hall]

theorem parseDate_iso {s : String} (h : isoCore s.data = true) :
    parseDate s = some s := by
  have hne : s.data.isEmpty = false := by
    cases hd : s.data with
    | nil => rw [hd] at h; simp [isoCore] at h
    | cons a t => simp
  simp [parseDate, hne, h]

theorem parseDate_slash {s : String} (h : slashCore s.data = true) :
    (parseDate s).isSome = true := by
  have hne : s.data.isEmpty = false := by
    cases hd : s.data with
    | nil => rw [hd] at h; simp [slashCore] at h
    | cons a t => simp
  simp [parseDate, hne, h, slash_not_iso h]

theorem parseDate_dot {s : String} (h : dotCore s.data = true) :
    (parseDate s).isSome = true := by
  have hne : s.data.isEmpty = false := by
    cases hd : s.data with
    | nil => rw [hd] at h; simp [dotCore] at h
    | cons a t => simp
  simp [parseDate, hne, h, dot_not_iso h, dot_not_slash h]

theorem parseDate_serial {l : List Char} (hne : l ≠ [])
    (hall : l.all Char.isDigit = true) (hpos : 0 < digitsToNat l) :
    parseDate (String.mk l) = some
      (msToDateStr (jsTrunc (((digitsToNat l : ℚ) - 25569) * 86400000))) := by
  have hne' : (String.mk l).data.isEmpty = false := by
    cases l with
    | nil => exact absurd rfl hne
    | cons a t => simp
  have hq : toNumber? (String.mk l) = some ((digitsToNat l : ℚ)) :=
    toNumberCore_digits hne hall
  have hposq : (0 : ℚ) < (digitsToNat l : ℚ) := by exact_mod_cast hpos
  simp [parseDate, hne', digits_not_iso hall, digits_not_slash hall,
    digits_not_dot hall, hq, hposq]

theorem parseDate_reject {s : String} (hi : isoCore s.data = false)
    (hs : slashCore s.data = false) (hd : dotCore s.data = false)
    (hnum : ∀ q : ℚ, toNumber? s = some q → ¬ 0 < q) :
    parseDate s = none := by
  by_cases hne : s.data.isEmpty = true
  · simp [parseDate, hne]
  · simp only [Bool.not_eq_true] at hne
    cases hn : toNumber? s with
    | none => simp [parseDate, hne, hi, hs, hd, hn]
    | some q => simp [parseDate, hne, hi, hs, hd, hn, hnum q hn]

/-- C4.  The import page's `parseDate` accepts the four documented
forms — ISO `YYYY-MM-DD` passed through verbatim, `YYYY/M/D` and
`YYYY.M.D` normalised, and any positive serial day number via the
fixed epoch offset `(serial − 25569) · 86 400 000 ms` — and returns
`null` for every string that matches none of them; a row whose date is
`null` gets a per-row `日期格式错误` error and no `batchMap` entry, and
the row loop of `processImport` is a fold whose error list, failure
count and aggregate map are exactly those of the per-row
classification, so one bad row never aborts the rest. -/
theorem claim4_date_parsing :
    (∀ s : String, isoCore s.data = true → parseDate s = some s) ∧
    (∀ s : String, slashCore s.data = true → (parseDate s).isSome = true) ∧
    (∀ s : String, dotCore s.data = true → (parseDate s).isSome = true) ∧
    (∀ l : List Char, l ≠ [] → l.all Char.isDigit = true → 0 < digitsToNat l →
      parseDate (String.mk l) = some
        (msToDateStr (jsTrunc (((digitsToNat l : ℚ) - 25569) * 86400000)))) ∧
    (∀ s : String, isoCore s.data = false → slashCore s.data = false →
      dotCore s.data = false → (∀ q : ℚ, toNumber? s = some q → ¬ 0 < q) →
      parseDate s = none) ∧
    (∀ (users : List AppUser) (branch : String) (row : ExcelRow) (u : AppUser),
      nameToUser users branch row.rname = some u → parseDate row.rdate = none →
      rowError users branch row = some ("日期格式错误: " ++ row.rdate) ∧
      validEntry users branch row = none) ∧
    (∀ (users : List AppUser) (branch : String) (rows : List ExcelRow),
      (procRows users branch rows).errors = rows.filterMap (rowError users branch) ∧
      (procRows users branch rows).failed =
        (rows.filterMap (rowError users branch)).length ∧
      (procRows users branch rows).batchMap =
        buildMap (rows.filterMap (validEntry users branch))) := by
  refine ⟨fun s h => parseDate_iso h, fun s h => parseDate_slash h,
    fun s h => parseDate_dot h, fun l h1 h2 h3 => parseDate_serial h1 h2 h3,
    fun s h1 h2 h3 h4 => parseDate_reject h1 h2 h3 h4, ?_, ?_⟩
  · intro users branch row u hn hd
    constructor
    · unfold rowError
      rw [hn, hd]
    · unfold validEntry
      rw [hn, hd]
  · intro users branch rows
    rw [procRows_eq]
    exact ⟨rfl, rfl, rfl⟩

/-- Witness for C4: the four accepted forms on concrete dates, a
rejected string, and a two-row import where the bad-date row yields one
per-row error while the following good row is still aggregated. -/
theorem claim4_witness :
    parseDate "2024-01-02" = some "2024-01-02" ∧
    (parseDate "2024/1/2").isSome = true ∧
    (parseDate "2025.12.1").isSome = true ∧
    parseDate "25570" = some "1970-01-02" ∧
    parseDate "abc" = none ∧
    (procRows [demoUser] "b1" [demoBadRow, demoGoodRow]).errors =
      ["日期格式错误: 2024-13"] ∧
    (procRows [demoUser] "b1" [demoBadRow, demoGoodRow]).failed = 1 ∧
    keyIns (procRows [demoUser] "b1" [demoBadRow, demoGoodRow]).batchMap
      "u1-2025-12-01-批次A" = 30 := by
  have hserial : parseDate "25570" = some "1970-01-02" := by
    have h := claim4_date_parsing.2.2.2.1 ['2', '5', '5', '7', '0']
      (by decide) (by decide) (by decide)
    have hdig : digitsToNat ['2', '5', '5', '7', '0'] = 25570 := by decide
    rw [hdig] at h
    have hqq : (((25570 : ℕ) : ℚ) - 25569) * 86400000 = 86400000 := by norm_num
    rw [hqq] at h
    have hj : jsTrunc (86400000 : ℚ) = 86400000 := by
      unfold jsTrunc
      rw [if_pos (by norm_num), Rat.floor_def']
      norm_num
    rw [hj] at h
    have hm : msToDateStr 86400000 = "1970-01-02" := by decide
    rw [hm] at h
    exact h
  have habc : parseDate "abc" = none := by
    apply claim4_date_parsing.2.2.2.2.1 "abc" (by decide) (by decide) (by decide)
    intro q hq
    rw [show toNumber? "abc" = none from by decide] at hq
    exact Option.noConfusion hq
  refine ⟨claim4_date_parsing.1 _ (by decide), claim4_date_parsing.2.1 _ (by decide),
    claim4_date_parsing.2.2.1 _ (by decide), hserial, habc, ?_, ?_, ?_⟩
  · decide
  · decide
  · decide

/-- C5 counterexample.  The claim's rule predicts the wrong row count
in both directions: a first cell equal to the header label `日期` is
not skipped under the claim's condition (not-parseable AND not-label
fails), yet `parseCSV` drops the row; and a first cell `2025-1-1` is
unparseable and not the label, so the claim predicts a skipped header,
yet `parseCSV` keeps every row because the cell matches the loose
`isValidDateFormat` pattern the code actually tests. -/
theorem claim5_counterexample :
    (parseCSV cexTextLabel).length = 1 ∧ claimC5Rows cexTextLabel = 2 ∧
    (parseCSV cexTextLoose).length = 2 ∧ claimC5Rows cexTextLoose = 1 := by
  refine ⟨by decide, by decide, by decide, by decide⟩

/-- C5 (amended).  Header detection in `parseCSV`/`parseExcel` drops
the first row iff its first cell is literally `日期` or fails the loose
`isValidDateFormat` pattern (`YYYY` + separator + 1–2 digits +
separator + 1–2 digits, each separator independently a dash, slash or
dot; or a pure digit string); otherwise every row, the first included,
is parsed as data. -/
theorem claim5_header_detection :
    (∀ text : String, linesOf text ≠ [] →
      ((skipsHeader (firstValueOf ((linesOf text).getD 0 "")) = true →
        parseCSV text =
          ((linesOf text).drop 1).map (fun l => rowOfValues (parseLineVals l))) ∧
      (skipsHeader (firstValueOf ((linesOf text).getD 0 "")) = false →
        parseCSV text =
          (linesOf text).map (fun l => rowOfValues (parseLineVals l))))) ∧
    (∀ data : List (List String), data ≠ [] →
      ((skipsHeader ((data.getD 0 []).getD 0 "") = true →
        parseExcel data =
          ((data.drop 1).filter (fun r => !r.isEmpty)).map rowOfValues) ∧
      (skipsHeader ((data.getD 0 []).getD 0 "") = false →
        parseExcel data = (data.filter (fun r => !r.isEmpty)).map rowOfValues))) := by
  constructor
  · intro text hne
    have hni : (linesOf text).isEmpty = false := by
      cases h : linesOf text with
      | nil => exact absurd h hne
      | cons a t => simp
    constructor
    · intro hskip
      unfold parseCSV
      simp only [hni, Bool.false_eq_true, if_false]
      rw [hskip]
      simp
    · intro hskip
      unfold parseCSV
      simp only [hni, Bool.false_eq_true, if_false]
      rw [hskip]
      simp
  · intro data hne
    have hni : data.isEmpty = false := by
      cases h : data with
      | nil => exact absurd h hne
      | cons a t => simp
    constructor
    · intro hskip
      unfold parseExcel
      simp only [hni, Bool.false_eq_true, if_false]
      rw [hskip]
      simp
    · intro hskip
      unfold parseExcel
      simp only [hni, Bool.false_eq_true, if_false]
      rw [hskip]
      simp

/-- Witness for C5 (amended): on the two counterexample texts the
amended rule gives exactly the code's output — the `日期` header is
dropped, the loose-format first row is kept. -/
theorem claim5_witness :
    parseCSV cexTextLabel =
      ((linesOf cexTextLabel).drop 1).map (fun l => rowOfValues (parseLineVals l)) ∧
    parseCSV cexTextLoose =
      (linesOf cexTextLoose).map (fun l => rowOfValues (parseLineVals l)) ∧
    (parseCSV cexTextLabel).length = 1 ∧ (parseCSV cexTextLoose).length = 2 := by
  refine ⟨(claim5_header_detection.1 cexTextLabel (by decide)).1 (by decide),
    (claim5_header_detection.1 cexTextLoose (by decide)).2 (by decide),
    by decide, by decide⟩
